import Mathlib

/-!
Shallow embedding of the core of `python-rfscope`:
FFT-size selection (`FFTSizePlanner`), capture/Welch parameter planning,
the immutable `SpectrumFrame` data model, and the spectrum wire codec.
Python floats are modelled as exact rationals (`ℚ`); values that may be
non-finite (NaN, infinities) are modelled by the four-case type `PyF`.
Fallible functions return `Except`.
-/

set_option maxHeartbeats 1000000
set_option maxRecDepth 8000

namespace RFScope

/-- Equivalent-noise-bandwidth table `ENBW` from `rfscope/common/utils.py`:
maps a window name to its ENBW factor; unknown windows are absent. -/
def ENBW : String → Option ℚ := fun w =>
  if w = "rect" then some 1
  else if w = "hann" then some (3 / 2)
  else if w = "hamming" then some (34 / 25)
  else if w = "blackman" then some (173 / 100)
  else none

/-- Fuelled floor logarithm: `flogF b fuel n` counts how often `n` can be
divided by `b` before dropping below `b`. Structurally recursive so that it
evaluates inside the kernel. -/
def flogF (b : ℕ) : ℕ → ℕ → ℕ
  | 0, _ => 0
  | fuel + 1, n => if n < b then 0 else flogF b fuel (n / b) + 1

/-- Models `int(math.log(n, b))` for exact logarithms: the floor logarithm. -/
def flog (b n : ℕ) : ℕ := flogF b n n

/-- Models `ceil(log(n, b))` for exact logarithms: the ceiling logarithm
(`fclog b n = Nat.clog b n`, proved below). -/
def fclog (b n : ℕ) : ℕ := if n ≤ 1 then 0 else flog b (n - 1) + 1

theorem flogF_eq (b : ℕ) (hb : 1 < b) :
    ∀ fuel n, n ≤ fuel → flogF b fuel n = Nat.log b n := by
  intro fuel
  induction fuel with
  | zero => intro n hn; interval_cases n; simp [flogF]
  | succ f ih =>
    intro n hn
    rw [flogF]
    by_cases h : n < b
    · simp [h, Nat.log_eq_zero_iff.mpr (Or.inl h)]
    · push_neg at h
      have hn1 : 1 ≤ n := le_trans (le_of_lt hb) h
      have hdiv : n / b < n := Nat.div_lt_self hn1 hb
      have hf : n / b ≤ f := by omega
      rw [if_neg (by omega), ih _ hf]
      have hpos : 0 < Nat.log b n := Nat.log_pos hb h
      rw [Nat.log_div_base]
      omega

theorem flog_eq_log (b n : ℕ) (hb : 1 < b) : flog b n = Nat.log b n :=
  flogF_eq b hb n n le_rfl

theorem fclog_eq_clog (b n : ℕ) (hb : 1 < b) : fclog b n = Nat.clog b n := by
  unfold fclog
  by_cases h : n ≤ 1
  · rw [if_pos h]
    interval_cases n
    · simp [Nat.clog]
    · simp [Nat.clog]
  · rw [if_neg h]
    push_neg at h
    rw [flog_eq_log _ _ hb]
    have h1 : n - 1 ≠ 0 := by omega
    have hle : n ≤ b ^ (Nat.log b (n - 1) + 1) := by
      have hx := Nat.lt_pow_succ_log_self hb (n - 1)
      rw [Nat.succ_eq_add_one] at hx
      omega
    have hgt : ¬ n ≤ b ^ (Nat.log b (n - 1)) := by
      have hx := Nat.pow_log_le_self b h1
      omega
    have hc1 : Nat.clog b n ≤ Nat.log b (n - 1) + 1 := (Nat.le_pow_iff_clog_le hb).mp hle
    have hc2 : ¬ Nat.clog b n ≤ Nat.log b (n - 1) := fun hc =>
      hgt ((Nat.le_pow_iff_clog_le hb).mpr hc)
    omega

/-- Models `FFTSizePlanner.next_pow2` from `rfscope/common/utils.py`:
models `1 << ceil(log2(max(2.0, float(n_min))))` with an exact (real-valued)
base-2 logarithm; for a rational `q ≥ 1`, `ceil(log2 q)` is the ceiling
logarithm of `⌈q⌉`. Raises (returns `.error`) when `n_min` is not positive. -/
def next_pow2 (n_min : ℚ) : Except String ℕ :=
  if 0 < n_min then .ok (2 ^ fclog 2 (⌈max 2 n_min⌉.toNat))
  else .error "n_min must be a positive number"

/-- The test `best is None or n < best` in the inner loop of `next_5smooth`. -/
def improves (n : ℕ) : Option ℕ → Bool
  | none => true
  | some m => decide (n < m)

/-- The body of the innermost loop of `next_5smooth`: record candidate `n`
when `n >= n_target and (best is None or n < best)`. -/
def bump (t n : ℕ) (best : Option ℕ) : Option ℕ :=
  if t ≤ n ∧ improves n best = true then some n else best

/-- The test `best is not None and pow > best`: the pruning condition that breaks out
of a loop of `next_5smooth`. -/
def stopAt (best : Option ℕ) (p : ℕ) : Bool :=
  match best with
  | none => false
  | some m => decide (m < p)

/-- The `for c in range(max_exp5 + 1)` loop of `next_5smooth` (no break). -/
def innerC (t p3 : ℕ) : List ℕ → Option ℕ → Option ℕ
  | [], best => best
  | c :: cs, best => innerC t p3 cs (bump t (p3 * 5 ^ c) best)

/-- The `for b in range(max_exp3 + 1)` loop of `next_5smooth`, with its
`break` once `pow3 > best`. -/
def loopB (t p2 mc : ℕ) : List ℕ → Option ℕ → Option ℕ
  | [], best => best
  | b :: bs, best =>
    if stopAt best (p2 * 3 ^ b) = true then best
    else loopB t p2 mc bs (innerC t (p2 * 3 ^ b) (List.range (mc + 1)) best)

/-- The `for a in range(max_exp2 + 1)` loop of `next_5smooth`, with its
`break` once `pow2 > best`. -/
def loopA (t mb mc : ℕ) : List ℕ → Option ℕ → Option ℕ
  | [], best => best
  | a :: rest, best =>
    if stopAt best (2 ^ a) = true then best
    else loopA t mb mc rest (loopB t (2 ^ a) mc (List.range (mb + 1)) best)

/-- The bounded exhaustive search of `next_5smooth` over exponent ranges
`max_exp2 = int(log(n_target, 2)) + 2` (etc., modelled with the exact
floor logarithm `Nat.log`), starting from `best = None`. -/
def smoothSearch (t : ℕ) : Option ℕ :=
  loopA t (flog 3 t + 2) (flog 5 t + 2) (List.range (flog 2 t + 2 + 1)) none

/-- Models `FFTSizePlanner.next_5smooth` from `rfscope/common/utils.py`:
validates positivity, sets `n_target = max(1, ceil(n_min))`, and runs the
bounded exhaustive search. The `assert best is not None` is modelled by the
(`never taken`) second match arm. -/
def next_5smooth (n_min : ℚ) : Except String ℕ :=
  if 0 < n_min then
    match smoothSearch (max 1 (⌈n_min⌉.toNat)) with
    | some m => .ok m
    | none => .error "internal error: exhaustive search found no candidate"
  else .error "n_min must be a positive number"

/-- The two documented size strategies by name. The source dispatches via
`getattr(FFTSizePlanner, size_planner, None)` plus a `callable` test, which
accepts more names than these two; the full dispatch is modelled by
`getattrPlanner` below, of which `plannerOf` is the restriction to the
documented strategy names (`getattrPlanner_strategy`). -/
def plannerOf : String → Option (ℚ → Except String ℕ) := fun s =>
  if s = "next_pow2" then some next_pow2
  else if s = "next_5smooth" then some next_5smooth
  else none

/-- Return record of `plan_capture_parameters` (`CapturePlan` TypedDict). -/
structure CapturePlan where
  sample_rate : ℚ
  samples : ℤ
  rbw_eff : ℚ
  time : ℚ
deriving DecidableEq

/-- Models `plan_capture_parameters` from `rfscope/common/utils.py`, with its checks
in source order and the planner dispatch restricted to the documented
strategy names (`plan_capture_parameters_src` models the full `getattr`
dispatch); `int(overlap * nperseg)` is floor for the non-negative values
reachable here. -/
def plan_capture_parameters (rbw_hz fs_hz bw_hz : ℚ) (window : String)
    (overlap : ℚ) (K : ℤ) (size_planner : String) : Except String CapturePlan :=
  match ENBW window with
  | none => .error "Unknown window"
  | some enbw =>
    if ¬ (0 ≤ overlap ∧ overlap < 1) then .error "overlap must be in the interval from 0 to 1"
    else if ¬ 1 ≤ K then .error "K must be an integer at least 1"
    else if min rbw_hz (min fs_hz bw_hz) ≤ 0 then .error "rbw_hz, fs_hz, and bw_hz must be positive"
    else
      match plannerOf size_planner with
      | none => .error "Unknown size_planner"
      | some planner =>
        let nfft_min : ℚ := enbw * fs_hz / rbw_hz
        match planner nfft_min with
        | .error e => .error e
        | .ok nfftn =>
          let nfft : ℤ := (nfftn : ℤ)
          if nfft ≤ 0 then .error "computed nfft must be positive"
          else
            let nperseg : ℤ := nfft
            let noverlap : ℤ := ⌊overlap * (nperseg : ℚ)⌋
            let step : ℤ := nperseg - noverlap
            if step ≤ 0 then .error "nperseg minus noverlap must be positive; reduce overlap"
            else
              let rbw_eff : ℚ := enbw * fs_hz / (nfft : ℚ)
              let samples_per_chunk : ℤ := nperseg + (K - 1) * step
              let time_per_chunk : ℚ := (samples_per_chunk : ℚ) / fs_hz
              let chunks : ℤ := max 1 ⌈bw_hz / fs_hz⌉
              .ok ⟨fs_hz, chunks * samples_per_chunk, rbw_eff, (chunks : ℚ) * time_per_chunk⟩

/-- Return record of `plan_welch_parameters` (`WelchParams` TypedDict). -/
structure WelchParams where
  window : String
  nperseg : ℤ
  noverlap : ℤ
  nfft : ℤ
  scaling : String
  average : String
deriving DecidableEq

/-- Models `plan_welch_parameters` from `rfscope/dsp/spectral.py`, with its checks in
source order (the planner lookup happens after `nfft_min` is computed) and
the planner dispatch restricted to the documented strategy names
(`plan_welch_parameters_src` models the full `getattr` dispatch). -/
def plan_welch_parameters (rbw_hz fs_hz bw_hz : ℚ) (window : String)
    (overlap : ℚ) (K : ℤ) (size_planner : String) : Except String WelchParams :=
  match ENBW window with
  | none => .error "Unknown window"
  | some enbw =>
    if ¬ (0 ≤ overlap ∧ overlap < 1) then .error "overlap must be in the interval from 0 to 1"
    else if ¬ 1 ≤ K then .error "K must be an integer at least 1"
    else if min rbw_hz (min fs_hz bw_hz) ≤ 0 then .error "rbw_hz, fs_hz, and bw_hz must be positive"
    else
      let nfft_min : ℚ := enbw * fs_hz / rbw_hz
      match plannerOf size_planner with
      | none => .error "Unknown size_planner"
      | some planner =>
        match planner nfft_min with
        | .error e => .error e
        | .ok nfftn =>
          let nfft : ℤ := (nfftn : ℤ)
          let nperseg : ℤ := nfft
          let noverlap : ℤ := ⌊overlap * (nperseg : ℚ)⌋
          let step : ℤ := nperseg - noverlap
          if step ≤ 0 then .error "nperseg minus noverlap must be positive; reduce overlap"
          else .ok ⟨window, nperseg, noverlap, nfft, "density", "mean"⟩

/-- Model of a Python float: either a finite value (an exact rational) or one
of the non-finite IEEE values NaN, plus or minus infinity. Finite arithmetic
is modelled exactly (no overflow or rounding except where modelled
explicitly, as in `fl32`). -/
inductive PyF where
  | fin : ℚ → PyF
  | pinf : PyF
  | ninf : PyF
  | nan : PyF
deriving DecidableEq

/-- Models `np.isfinite`. -/
def PyF.isfinite : PyF → Bool
  | .fin _ => true
  | _ => false

/-- Python `x <= 0` under IEEE comparison semantics (NaN compares false). -/
def PyF.leZero : PyF → Bool
  | .fin q => decide (q ≤ 0)
  | .pinf => false
  | .ninf => true
  | .nan => false

/-- Python `x >= y` under IEEE comparison semantics (NaN compares false). -/
def PyF.geB : PyF → PyF → Bool
  | .nan, _ => false
  | _, .nan => false
  | .pinf, _ => true
  | _, .pinf => false
  | _, .ninf => true
  | .ninf, _ => false
  | .fin a, .fin b => decide (b ≤ a)

/-- Python `x == y` under IEEE comparison semantics (NaN equals nothing). -/
def PyF.eqB : PyF → PyF → Bool
  | .nan, _ => false
  | _, .nan => false
  | .fin a, .fin b => decide (a = b)
  | .pinf, .pinf => true
  | .ninf, .ninf => true
  | _, _ => false

/-- The rational carried by a finite `PyF` (defaults to 0; only used behind
finiteness guards). -/
def PyF.toQ : PyF → ℚ
  | .fin q => q
  | _ => 0

/-- The immutable `SpectrumFrame` value (fields after successful
construction, hence validated: floats that passed finiteness checks are
stored as rationals; `noise_floor_dbm_per_hz` is not validated by the source
and so may be non-finite). `metadata` is modelled as a JSON-safe
string-to-string mapping. -/
structure SpectrumFrame where
  psd_dbm_per_hz : List ℚ
  rbw_hz : ℚ
  f_start_hz : ℚ
  vbw_hz : Option ℚ
  window : Option String
  averages : ℤ
  noise_floor_dbm_per_hz : Option PyF
  metadata : List (String × String)
  frequencies_hz : List ℚ
deriving DecidableEq

/-- The `vbw_hz` validation of `SpectrumFrame.__post_init__`:
`vbw_hz is not None and (not isfinite(vbw_hz) or vbw_hz <= 0)`. -/
def vbwBad : Option PyF → Bool
  | none => false
  | some v => ¬ v.isfinite ∨ v.leZero

/-- Models `SpectrumFrame.__post_init__` from `rfscope/common/models.py`: validates
the fields in source order, computes `frequencies_hz = f_start_hz + rbw_hz*i`,
checks it is strictly increasing (the source also re-checks finiteness of the
axis, which cannot fail in exact rational arithmetic), and returns the frozen
value; any violated check raises (returns `.error`) and no object is made. -/
def mkSpectrumFrame (psd : List PyF) (rbw f_start : PyF) (vbw : Option PyF)
    (window : Option String) (averages : ℤ) (noise_floor : Option PyF)
    (metadata : List (String × String)) : Except String SpectrumFrame :=
  if psd.isEmpty then .error "psd_dbm_per_hz must not be empty"
  else if ¬ psd.all PyF.isfinite then .error "psd_dbm_per_hz must be finite"
  else if ¬ rbw.isfinite ∨ rbw.leZero then .error "rbw_hz must be a positive finite float"
  else if averages < 1 then .error "averages must be at least 1"
  else if vbwBad vbw then .error "vbw_hz, when provided, must be a positive finite float"
  else if ¬ f_start.isfinite then .error "f_start_hz must be finite"
  else
    let p := psd.map PyF.toQ
    let f := (List.range p.length).map (fun i : ℕ => f_start.toQ + rbw.toQ * (i : ℚ))
    if ¬ List.Chain' (· < ·) f then .error "Computed frequencies_hz must be strictly increasing"
    else .ok ⟨p, rbw.toQ, f_start.toQ, vbw.map PyF.toQ, window, averages, noise_floor, metadata, f⟩

/-- Well-formedness of a `SpectrumFrame` value: exactly the invariants that
hold of every frame produced by `mkSpectrumFrame`. -/
def SpectrumFrame.WF (sf : SpectrumFrame) : Prop :=
  sf.psd_dbm_per_hz ≠ [] ∧ 0 < sf.rbw_hz ∧ 1 ≤ sf.averages ∧
    (∀ v ∈ sf.vbw_hz, 0 < v) ∧
    sf.frequencies_hz =
      (List.range sf.psd_dbm_per_hz.length).map (fun i : ℕ => sf.f_start_hz + sf.rbw_hz * (i : ℚ))

/-- Models `SpectrumFrame.slice_band` from `rfscope/common/models.py`: validates the
band limits (IEEE comparison, matching the short-circuit structure of the
source), selects the indices whose frequency lies in the closed band, fails
when none qualifies, and rebuilds a new frame through the normal constructor
with `f_start_hz` taken from the first retained bin and all non-axis fields
copied. -/
def slice_band (sf : SpectrumFrame) (f_low f_high : PyF) : Except String SpectrumFrame :=
  if ¬ (f_low.isfinite ∧ f_high.isfinite) ∨ f_low.geB f_high then .error "Invalid band limits"
  else
    let idx := (List.range sf.frequencies_hz.length).filter
      (fun i => decide (f_low.toQ ≤ sf.frequencies_hz.getD i 0 ∧
        sf.frequencies_hz.getD i 0 ≤ f_high.toQ))
    if idx.isEmpty then .error "Requested band has no bins in this SpectrumFrame"
    else
      mkSpectrumFrame (idx.map (fun i => PyF.fin (sf.psd_dbm_per_hz.getD i 0)))
        (.fin sf.rbw_hz) (.fin (sf.frequencies_hz.getD (idx.headD 0) 0))
        (sf.vbw_hz.map .fin) sf.window sf.averages sf.noise_floor_dbm_per_hz sf.metadata

/-- Models `np.allclose` with its default tolerances `rtol=1e-5`, `atol=1e-8`,
specialised to equal-length 1-D finite arrays (the only shapes produced by
valid frames): elementwise `|a - b| <= atol + rtol * |b|`. -/
def allcloseQ (a b : List ℚ) : Bool :=
  decide (a.length = b.length) &&
    (List.zip a b).all (fun p => decide (|p.1 - p.2| ≤ 1 / 100000000 + (1 / 100000) * |p.2|))

/-- Python `==` on optional floats (`None == None` is true; NaN equals
nothing). -/
def pyOptEq : Option PyF → Option PyF → Bool
  | none, none => true
  | some x, some y => x.eqB y
  | _, _ => false

/-- Models `SpectrumFrame.__eq__` from `rfscope/common/models.py`: `np.allclose` on
the PSD and exact (`==`) comparison of the remaining scalar fields; the
`metadata` field is not compared. -/
def sfEq (x y : SpectrumFrame) : Bool :=
  allcloseQ x.psd_dbm_per_hz y.psd_dbm_per_hz &&
    decide (x.rbw_hz = y.rbw_hz) && decide (x.f_start_hz = y.f_start_hz) &&
    decide (x.vbw_hz = y.vbw_hz) && decide (x.window = y.window) &&
    decide (x.averages = y.averages) &&
    pyOptEq x.noise_floor_dbm_per_hz y.noise_floor_dbm_per_hz

/-- The floating dtypes accepted for PSD storage by the codec
(`_validate_float_dtype` admits exactly the floating dtypes; the model's
working precision, `float64`, is exact here). -/
inductive Dtype where
  | f32 : Dtype
  | f64 : Dtype
deriving DecidableEq

/-- The `str(np_dtype)` tag written into the header. -/
def dtypeName : Dtype → String
  | .f32 => "float32"
  | .f64 => "float64"

/-- Conversion of a double-precision value (exact rational in this model) to
IEEE binary32 by round-to-nearest on a 24-bit significand, with overflow to
the infinities; this models `ndarray.astype(np.float32)`. Tie-breaking and
the exact overflow threshold follow round-to-nearest closely enough for every
property stated about the codec (no theorem depends on them). -/
def fl32 (q : ℚ) : PyF :=
  if q = 0 then .fin 0
  else if (2 : ℚ) ^ (128 : ℕ) ≤ |q| then (if q < 0 then .ninf else .pinf)
  else
    let e : ℤ := max (Int.log 2 |q|) (-126)
    let ulp : ℚ := (2 : ℚ) ^ (e - 23)
    let r : ℚ := ((round (q / ulp) : ℤ) : ℚ) * ulp
    if (2 : ℚ) ^ (128 : ℕ) ≤ |r| then (if q < 0 then .ninf else .pinf) else .fin r

/-- Models `astype(dtype)` applied to one stored PSD value. -/
def storeVal : Dtype → ℚ → PyF
  | .f64, q => .fin q
  | .f32, q => fl32 q

/-- Denotation of a text string fed through the base64 → zlib → npy stack:
either the well-formed encoding of an npy payload (a dtype tag and the stored
element values), or a string at which one of the three binary layers fails
(for instance after truncation). -/
inductive BinData where
  | wellFormed : ℕ → Dtype → List PyF → BinData
  | badB64 : ℕ → BinData
  | badZlib : ℕ → BinData
  | badNpy : ℕ → BinData
deriving DecidableEq

/-- A JSON string value: ordinary text, or text denoting a binary payload
(`bin`); ordinary text fed to the binary stack fails at the zlib layer (its
base64 filter-decode typically succeeds and yields bytes that are not a zlib
stream). -/
inductive StrVal where
  | plain : String → StrVal
  | bin : BinData → StrVal
deriving DecidableEq

/-- Parsed JSON values as produced by `json.loads`: note that JSON integral
literals parse to Python `int` (`jint`) and decimal literals to `float`
(`jfloat`, possibly non-finite since Python json accepts NaN/Infinity). -/
inductive JVal where
  | jnull : JVal
  | jbool : Bool → JVal
  | jint : ℤ → JVal
  | jfloat : PyF → JVal
  | jstr : StrVal → JVal
  | jarr : List JVal → JVal
  | jobj : List (String × JVal) → JVal

/-- The outer text given to the decoder: either it parses as JSON (to a
`JVal`) or it is not valid JSON. -/
inductive JText where
  | valid : JVal → JText
  | bad : ℕ → JText

/-- The two error kinds of the design: `fmt` for the codec's own
invalid-format raises, `arg` for invalid-argument raises propagated from the
`SpectrumFrame` constructor. -/
inductive DErr where
  | fmt : String → DErr
  | arg : String → DErr
deriving DecidableEq

/-- Models `spectrumframe_to_b64` from `rfscope/dsp/spectrum_codec.py`: validates
the zlib level (the dtype argument is already one of the floating dtypes by
typing), converts the PSD with `astype(dtype)`, wraps it in the
npy/zlib/base64 stack, and emits the JSON envelope with the fixed header
fields, `codec = "zlib+npy"` and `version = 1`. -/
def spectrumframe_to_b64 (sf : SpectrumFrame) (level : ℤ) (dtype : Dtype) :
    Except String JVal :=
  if ¬ (0 ≤ level ∧ level ≤ 9) then .error "Compression level must be in the range 0 to 9"
  else
    .ok (.jobj [
      ("header", .jobj [
        ("rbw_hz", .jfloat (.fin sf.rbw_hz)),
        ("f_start_hz", .jfloat (.fin sf.f_start_hz)),
        ("vbw_hz", match sf.vbw_hz with | none => .jnull | some v => .jfloat (.fin v)),
        ("window", match sf.window with | none => .jnull | some w => .jstr (.plain w)),
        ("averages", .jint sf.averages),
        ("noise_floor_dbm_per_hz",
          match sf.noise_floor_dbm_per_hz with | none => .jnull | some x => .jfloat x),
        ("metadata", .jobj (sf.metadata.map (fun kv => (kv.1, JVal.jstr (.plain kv.2))))),
        ("psd_dtype", .jstr (.plain (dtypeName dtype))),
        ("codec", .jstr (.plain "zlib+npy")),
        ("version", .jint 1)]),
      ("data", .jstr (.bin (.wellFormed level.toNat dtype
        (sf.psd_dbm_per_hz.map (storeVal dtype)))))])

/-- Models `isinstance(v, (int, float))` on a parsed JSON value; Python `bool` is a
subclass of `int`, so JSON booleans count as numbers. -/
def isNumberJ : JVal → Bool
  | .jint _ => true
  | .jfloat _ => true
  | .jbool _ => true
  | _ => false

/-- Models `isinstance(v, (int, np.integer))`; again JSON booleans count. -/
def isIntLikeJ : JVal → Bool
  | .jint _ => true
  | .jbool _ => true
  | _ => false

/-- Python `v == "zlib+npy"` for `v = header.get("codec")` (absent → `None`,
which is not equal to the string). -/
def pyEqCodec : Option JVal → Bool
  | some (.jstr (.plain s)) => decide (s = "zlib+npy")
  | _ => false

/-- Python `v == 1` for `v = header.get("version")`: the JSON values `1`,
`1.0` and `true` all compare equal to `1`. -/
def pyEqOne : Option JVal → Bool
  | some (.jint n) => decide (n = 1)
  | some (.jfloat (.fin q)) => decide (q = 1)
  | some (.jbool b) => b
  | _ => false

/-- The test `header.get(k) is not None and not isinstance(header[k], (int, float))`:
the check applied to the optional numeric fields. -/
def optNumBad : Option JVal → Bool
  | none => false
  | some .jnull => false
  | some v => ! isNumberJ v

/-- Models `_validate_header` from `rfscope/dsp/spectrum_codec.py`, with its checks
in source order: required fields, codec, version, then per-field types. -/
def validateHeader (h : List (String × JVal)) : Except DErr Unit :=
  if (List.lookup "rbw_hz" h).isNone then .error (.fmt "Header missing required field: rbw_hz")
  else if (List.lookup "f_start_hz" h).isNone then .error (.fmt "Header missing required field: f_start_hz")
  else if (List.lookup "averages" h).isNone then .error (.fmt "Header missing required field: averages")
  else if ¬ pyEqCodec (List.lookup "codec" h) then .error (.fmt "Unsupported codec")
  else if ¬ pyEqOne (List.lookup "version" h) then .error (.fmt "Unsupported header version")
  else if ¬ isNumberJ ((List.lookup "rbw_hz" h).getD .jnull) then .error (.fmt "Header field rbw_hz must be a number")
  else if ¬ isNumberJ ((List.lookup "f_start_hz" h).getD .jnull) then .error (.fmt "Header field f_start_hz must be a number")
  else if ¬ isIntLikeJ ((List.lookup "averages" h).getD .jnull) then .error (.fmt "Header field averages must be an integer")
  else if optNumBad (List.lookup "vbw_hz" h) then .error (.fmt "Header field vbw_hz must be a number")
  else if optNumBad (List.lookup "noise_floor_dbm_per_hz" h) then .error (.fmt "Header field noise_floor_dbm_per_hz must be a number")
  else .ok ()

/-- The `base64 -> zlib -> npy` decode chain applied to the `data` field:
well-formed payloads yield the stored element values; each corrupt layer
raises its own invalid-format error; non-string data makes `b64decode` raise
(caught and re-raised as the base64 error). -/
def dataDecode : JVal → Except DErr (List PyF)
  | .jstr (.bin (.wellFormed _ _ vals)) => .ok vals
  | .jstr (.bin (.badB64 _)) => .error (.fmt "Invalid base64 PSD payload")
  | .jstr (.bin (.badZlib _)) => .error (.fmt "Invalid zlib-compressed PSD payload")
  | .jstr (.bin (.badNpy _)) => .error (.fmt "Invalid npy payload for PSD data")
  | .jstr (.plain _) => .error (.fmt "Invalid zlib-compressed PSD payload")
  | _ => .error (.fmt "Invalid base64 PSD payload")

/-- A validated numeric JSON value as the Python float handed to the frame
constructor (booleans coerce to 0/1; other cases unreachable behind
`isNumberJ`). -/
def jToPyF : JVal → PyF
  | .jint n => .fin (n : ℚ)
  | .jfloat x => x
  | .jbool b => .fin (if b then 1 else 0)
  | _ => .fin 0

/-- A validated int-like JSON value as a Python int. -/
def jToInt : JVal → ℤ
  | .jint n => n
  | .jbool b => if b then 1 else 0
  | _ => 0

/-- Models `header.get(k)` for the optional numeric fields (absent or `null` →
`None`). -/
def jToOptPyF : Option JVal → Option PyF
  | none => none
  | some .jnull => none
  | some v => some (jToPyF v)

/-- Models `header.get("window")` as the frame's window field; a non-string,
non-null window object is stored opaquely (its exact value is irrelevant to
every property stated here). -/
def jToWindow : Option JVal → Option String
  | some (.jstr (.plain s)) => some s
  | some .jnull => none
  | none => none
  | some _ => some ""

/-- Models the metadata lookup `header.get` with default empty mapping. -/
def jToMeta : Option JVal → List (String × String)
  | some (.jobj l) => l.filterMap (fun kv =>
      match kv.2 with
      | .jstr (.plain s) => some (kv.1, s)
      | _ => none)
  | _ => []

/-- Models `b64_to_spectrumframe` from `rfscope/dsp/spectrum_codec.py`: JSON parse,
structural checks, `_validate_header`, binary decode, then reconstruction
through the normal `SpectrumFrame` constructor (whose raises surface as
invalid-argument, `DErr.arg`). -/
def b64_to_spectrumframe (t : JText) : Except DErr SpectrumFrame :=
  match t with
  | .bad _ => .error (.fmt "Invalid JSON; cannot parse SpectrumFrame payload")
  | .valid v =>
    match v with
    | .jobj fields =>
      match List.lookup "header" fields with
      | none => .error (.fmt "Missing required field in payload: header")
      | some hv =>
        match List.lookup "data" fields with
        | none => .error (.fmt "Missing required field in payload: data")
        | some dv =>
          match hv with
          | .jobj h =>
            match validateHeader h with
            | .error e => .error e
            | .ok _ =>
              match dataDecode dv with
              | .error e => .error e
              | .ok psd =>
                match mkSpectrumFrame psd
                    (jToPyF ((List.lookup "rbw_hz" h).getD .jnull))
                    (jToPyF ((List.lookup "f_start_hz" h).getD .jnull))
                    (jToOptPyF (List.lookup "vbw_hz" h))
                    (jToWindow (List.lookup "window" h))
                    (jToInt ((List.lookup "averages" h).getD .jnull))
                    (jToOptPyF (List.lookup "noise_floor_dbm_per_hz" h))
                    (jToMeta (List.lookup "metadata" h)) with
                | .error m => .error (.arg m)
                | .ok sf => .ok sf
          | _ => .error (.fmt "Invalid header; expected object")
    | _ => .error (.fmt "Invalid payload; expected JSON object")

instance {α β : Type} [DecidableEq α] [DecidableEq β] : DecidableEq (Except α β) := fun a b =>
  match a, b with
  | .error x, .error y =>
    if h : x = y then .isTrue (by rw [h]) else .isFalse (by intro hc; cases hc; exact h rfl)
  | .ok x, .ok y =>
    if h : x = y then .isTrue (by rw [h]) else .isFalse (by intro hc; cases hc; exact h rfl)
  | .error _, .ok _ => .isFalse (by intro hc; cases hc)
  | .ok _, .error _ => .isFalse (by intro hc; cases hc)

theorem next_pow2_spec (n : ℚ) (hn : 0 < n) :
    ∃ k : ℕ, next_pow2 n = .ok (2 ^ k) ∧ max 2 n ≤ ((2 ^ k : ℕ) : ℚ) ∧
      ∀ j : ℕ, max 2 n ≤ ((2 ^ j : ℕ) : ℚ) → 2 ^ k ≤ 2 ^ j := by
  have h2 : (2 : ℚ) ≤ max 2 n := le_max_left _ _
  have hc2 : (2 : ℤ) ≤ ⌈max 2 n⌉ := by
    have h := Int.ceil_le_ceil (α := ℚ) h2
    simpa using h
  set t : ℕ := ⌈max 2 n⌉.toNat with ht
  have htz : (t : ℤ) = ⌈max 2 n⌉ := Int.toNat_of_nonneg (by omega)
  refine ⟨fclog 2 t, ?_, ?_, ?_⟩
  · simp [next_pow2, hn]
  · rw [fclog_eq_clog 2 t (by norm_num)]
    have h1 : t ≤ 2 ^ Nat.clog 2 t := Nat.le_pow_clog (by norm_num) t
    have h2' : max 2 n ≤ (t : ℚ) := by
      have h3 := Int.le_ceil (max 2 n)
      rw [← htz] at h3
      exact_mod_cast h3
    calc max 2 n ≤ (t : ℚ) := h2'
      _ ≤ ((2 ^ Nat.clog 2 t : ℕ) : ℚ) := by exact_mod_cast h1
  · intro j hj
    rw [fclog_eq_clog 2 t (by norm_num)]
    have h4 : ⌈max 2 n⌉ ≤ ((2 ^ j : ℕ) : ℤ) := by
      rw [Int.ceil_le]
      push_cast
      push_cast at hj
      exact hj
    have h5 : t ≤ 2 ^ j := by omega
    have h6 : Nat.clog 2 t ≤ j := (Nat.le_pow_iff_clog_le (by norm_num)).mp h5
    exact Nat.pow_le_pow_right (by norm_num) h6

theorem next_pow2_invalid (n : ℚ) (hn : ¬ 0 < n) :
    next_pow2 n = .error "n_min must be a positive number" := by
  simp [next_pow2, hn]

/-- C3: for every positive `n_min`, `FFTSizePlanner.next_pow2` returns the
smallest power of two that is at least `max 2 n_min` (the result is a power
of two, at least `max 2 n_min`, and minimal among such values), and it
raises invalid-argument for every non-positive `n_min`. -/
theorem next_pow2_correct (n : ℚ) :
    (0 < n → ∃ k : ℕ, next_pow2 n = .ok (2 ^ k) ∧ max 2 n ≤ ((2 ^ k : ℕ) : ℚ) ∧
      ∀ j : ℕ, max 2 n ≤ ((2 ^ j : ℕ) : ℚ) → 2 ^ k ≤ 2 ^ j) ∧
    (¬ 0 < n → next_pow2 n = .error "n_min must be a positive number") :=
  ⟨next_pow2_spec n, next_pow2_invalid n⟩

/-- Witness for C3 at the spec's concrete scenario `next_pow2(1000) = 1024`
and at the invalid input `-3`. -/
theorem next_pow2_correct_witness :
    (∃ k : ℕ, next_pow2 1000 = .ok (2 ^ k) ∧ max 2 (1000 : ℚ) ≤ ((2 ^ k : ℕ) : ℚ) ∧
      ∀ j : ℕ, max 2 (1000 : ℚ) ≤ ((2 ^ j : ℕ) : ℚ) → 2 ^ k ≤ 2 ^ j) ∧
    next_pow2 (-3) = .error "n_min must be a positive number" ∧
    next_pow2 1000 = .ok 1024 :=
  ⟨(next_pow2_correct 1000).1 (by norm_num), (next_pow2_correct (-3)).2 (by norm_num), by decide⟩

/-- A 5-smooth (Hamming) number: only prime factors 2, 3 and 5. -/
def Smooth5 (n : ℕ) : Prop := ∃ a b c : ℕ, n = 2 ^ a * 3 ^ b * 5 ^ c

theorem bump_some_of_best_some {t n m0 : ℕ} {best : Option ℕ} (h : best = some m0) :
    ∃ m1, bump t n best = some m1 ∧ m1 ≤ m0 := by
  subst h
  by_cases hc : t ≤ n ∧ improves n (some m0) = true
  · refine ⟨n, by simp [bump, hc], ?_⟩
    have := hc.2
    simp [improves] at this
    omega
  · exact ⟨m0, by simp [bump, hc], le_rfl⟩

theorem bump_le_cand {t n : ℕ} (best : Option ℕ) (h : t ≤ n) :
    ∃ m1, bump t n best = some m1 ∧ m1 ≤ n := by
  cases best with
  | none => exact ⟨n, by simp [bump, improves, h], le_rfl⟩
  | some m0 =>
    by_cases hlt : n < m0
    · exact ⟨n, by simp [bump, improves, h, hlt], le_rfl⟩
    · exact ⟨m0, by simp [bump, improves, h, hlt], by omega⟩

theorem bump_good {t n : ℕ} {best : Option ℕ} (hS : Smooth5 n)
    (hb : ∀ m, best = some m → t ≤ m ∧ Smooth5 m) :
    ∀ m, bump t n best = some m → t ≤ m ∧ Smooth5 m := by
  intro m hm
  by_cases hc : t ≤ n ∧ improves n best = true
  · simp [bump, hc] at hm
    subst hm
    exact ⟨hc.1, hS⟩
  · simp [bump, hc] at hm
    exact hb m hm

theorem innerC_some_of_best_some {t p3 : ℕ} :
    ∀ (cs : List ℕ) (m0 : ℕ), ∃ m1, innerC t p3 cs (some m0) = some m1 ∧ m1 ≤ m0 := by
  intro cs
  induction cs with
  | nil => intro m0; exact ⟨m0, by simp [innerC], le_rfl⟩
  | cons c cs ih =>
    intro m0
    obtain ⟨m1, hm1, hle1⟩ := @bump_some_of_best_some t (p3 * 5 ^ c) m0 (some m0) rfl
    obtain ⟨m2, hm2, hle2⟩ := ih m1
    rw [← hm1] at hm2
    exact ⟨m2, by simpa [innerC] using hm2, le_trans hle2 hle1⟩

theorem innerC_le_cand {t p3 c : ℕ} :
    ∀ (cs : List ℕ) (best : Option ℕ), c ∈ cs → t ≤ p3 * 5 ^ c →
      ∃ m1, innerC t p3 cs best = some m1 ∧ m1 ≤ p3 * 5 ^ c := by
  intro cs
  induction cs with
  | nil => intro best h; simp at h
  | cons c0 cs ih =>
    intro best hmem ht
    rcases List.mem_cons.mp hmem with hc | hc
    · subst hc
      obtain ⟨m1, hm1, hle1⟩ := bump_le_cand (t := t) best ht
      obtain ⟨m2, hm2, hle2⟩ := innerC_some_of_best_some cs m1
      rw [← hm1] at hm2
      exact ⟨m2, by simpa [innerC] using hm2, le_trans hle2 hle1⟩
    · obtain ⟨m2, hm2, hle2⟩ := ih (bump t (p3 * 5 ^ c0) best) hc ht
      exact ⟨m2, by simpa [innerC] using hm2, hle2⟩

theorem innerC_good {t p3 : ℕ} (hp3 : ∀ c : ℕ, Smooth5 (p3 * 5 ^ c)) :
    ∀ (cs : List ℕ) (best : Option ℕ),
      (∀ m, best = some m → t ≤ m ∧ Smooth5 m) →
      ∀ m, innerC t p3 cs best = some m → t ≤ m ∧ Smooth5 m := by
  intro cs
  induction cs with
  | nil => intro best hb m hm; exact hb m (by simpa [innerC] using hm)
  | cons c cs ih =>
    intro best hb m hm
    exact ih _ (bump_good (hp3 c) hb) m (by simpa [innerC] using hm)

theorem loopB_some_of_best_some {t p2 mc : ℕ} :
    ∀ (bs : List ℕ) (m0 : ℕ), ∃ m1, loopB t p2 mc bs (some m0) = some m1 ∧ m1 ≤ m0 := by
  intro bs
  induction bs with
  | nil => intro m0; exact ⟨m0, by simp [loopB], le_rfl⟩
  | cons b bs ih =>
    intro m0
    by_cases hs : stopAt (some m0) (p2 * 3 ^ b) = true
    · exact ⟨m0, by simp [loopB, hs], le_rfl⟩
    · obtain ⟨m1, hm1, hle1⟩ :=
        @innerC_some_of_best_some t (p2 * 3 ^ b) (List.range (mc + 1)) m0
      obtain ⟨m2, hm2, hle2⟩ := ih m1
      rw [← hm1] at hm2
      exact ⟨m2, by simpa [loopB, hs] using hm2, le_trans hle2 hle1⟩

theorem loopB_le_cand {t p2 mc b c : ℕ} :
    ∀ (bs : List ℕ) (best : Option ℕ), bs.Pairwise (· < ·) → b ∈ bs → c ≤ mc →
      t ≤ p2 * 3 ^ b * 5 ^ c →
      ∃ m1, loopB t p2 mc bs best = some m1 ∧ m1 ≤ p2 * 3 ^ b * 5 ^ c := by
  intro bs
  induction bs with
  | nil => intro best _ h; simp at h
  | cons b0 bs ih =>
    intro best hpw hmem hc ht
    have hpw' := List.pairwise_cons.mp hpw
    by_cases hs : stopAt best (p2 * 3 ^ b0) = true
    · cases best with
      | none => simp [stopAt] at hs
      | some m0 =>
        simp [stopAt] at hs
        refine ⟨m0, by simp [loopB, stopAt, hs], ?_⟩
        have hb0b : b0 ≤ b := by
          rcases List.mem_cons.mp hmem with h | h
          · omega
          · exact le_of_lt (hpw'.1 b h)
        have hmono : p2 * 3 ^ b0 ≤ p2 * 3 ^ b * 5 ^ c := by
          have h3 : (3 : ℕ) ^ b0 ≤ 3 ^ b := Nat.pow_le_pow_right (by norm_num) hb0b
          have h5 : (1 : ℕ) ≤ 5 ^ c := Nat.one_le_pow _ _ (by norm_num)
          calc p2 * 3 ^ b0 ≤ p2 * 3 ^ b := Nat.mul_le_mul_left _ h3
            _ = p2 * 3 ^ b * 1 := by ring
            _ ≤ p2 * 3 ^ b * 5 ^ c := Nat.mul_le_mul_left _ h5
        omega
    · rcases List.mem_cons.mp hmem with hb | hb
      · subst hb
        have hcm : c ∈ List.range (mc + 1) := List.mem_range.mpr (by omega)
        obtain ⟨m1, hm1, hle1⟩ := innerC_le_cand (List.range (mc + 1)) best hcm ht
        obtain ⟨m2, hm2, hle2⟩ := loopB_some_of_best_some bs m1
        rw [← hm1] at hm2
        exact ⟨m2, by simpa [loopB, hs] using hm2, le_trans hle2 hle1⟩
      · obtain ⟨m2, hm2, hle2⟩ := ih _ hpw'.2 hb hc ht
        exact ⟨m2, by simpa [loopB, hs] using hm2, hle2⟩

theorem loopB_good {t p2 mc : ℕ} (hp2 : ∃ a : ℕ, p2 = 2 ^ a) :
    ∀ (bs : List ℕ) (best : Option ℕ),
      (∀ m, best = some m → t ≤ m ∧ Smooth5 m) →
      ∀ m, loopB t p2 mc bs best = some m → t ≤ m ∧ Smooth5 m := by
  intro bs
  induction bs with
  | nil => intro best hb m hm; exact hb m (by simpa [loopB] using hm)
  | cons b bs ih =>
    intro best hb m hm
    by_cases hs : stopAt best (p2 * 3 ^ b) = true
    · exact hb m (by simpa [loopB, hs] using hm)
    · rw [loopB, if_neg hs] at hm
      refine ih _ ?_ m hm
      refine innerC_good ?_ _ _ hb
      intro c
      obtain ⟨a, ha⟩ := hp2
      exact ⟨a, b, c, by rw [ha]⟩

theorem loopA_some_of_best_some {t mb mc : ℕ} :
    ∀ (l : List ℕ) (m0 : ℕ), ∃ m1, loopA t mb mc l (some m0) = some m1 ∧ m1 ≤ m0 := by
  intro l
  induction l with
  | nil => intro m0; exact ⟨m0, by simp [loopA], le_rfl⟩
  | cons a l ih =>
    intro m0
    by_cases hs : stopAt (some m0) (2 ^ a) = true
    · exact ⟨m0, by simp [loopA, hs], le_rfl⟩
    · obtain ⟨m1, hm1, hle1⟩ :=
        @loopB_some_of_best_some t (2 ^ a) mc (List.range (mb + 1)) m0
      obtain ⟨m2, hm2, hle2⟩ := ih m1
      rw [← hm1] at hm2
      exact ⟨m2, by simpa [loopA, hs] using hm2, le_trans hle2 hle1⟩

theorem loopA_le_cand {t mb mc a b c : ℕ} :
    ∀ (l : List ℕ) (best : Option ℕ), l.Pairwise (· < ·) → a ∈ l → b ≤ mb → c ≤ mc →
      t ≤ 2 ^ a * 3 ^ b * 5 ^ c →
      ∃ m1, loopA t mb mc l best = some m1 ∧ m1 ≤ 2 ^ a * 3 ^ b * 5 ^ c := by
  intro l
  induction l with
  | nil => intro best _ h; simp at h
  | cons a0 l ih =>
    intro best hpw hmem hb hc ht
    have hpw' := List.pairwise_cons.mp hpw
    by_cases hs : stopAt best (2 ^ a0) = true
    · cases best with
      | none => simp [stopAt] at hs
      | some m0 =>
        simp [stopAt] at hs
        refine ⟨m0, by simp [loopA, stopAt, hs], ?_⟩
        have ha0a : a0 ≤ a := by
          rcases List.mem_cons.mp hmem with h | h
          · omega
          · exact le_of_lt (hpw'.1 a h)
        have hmono : 2 ^ a0 ≤ 2 ^ a * 3 ^ b * 5 ^ c := by
          have h2 : (2 : ℕ) ^ a0 ≤ 2 ^ a := Nat.pow_le_pow_right (by norm_num) ha0a
          have h3 : (1 : ℕ) ≤ 3 ^ b := Nat.one_le_pow _ _ (by norm_num)
          have h5 : (1 : ℕ) ≤ 5 ^ c := Nat.one_le_pow _ _ (by norm_num)
          calc (2 : ℕ) ^ a0 ≤ 2 ^ a := h2
            _ = 2 ^ a * 1 * 1 := by ring
            _ ≤ 2 ^ a * 3 ^ b * 5 ^ c := Nat.mul_le_mul (Nat.mul_le_mul_left _ h3) h5
        omega
    · rcases List.mem_cons.mp hmem with ha | ha
      · subst ha
        have hbm : b ∈ List.range (mb + 1) := List.mem_range.mpr (by omega)
        obtain ⟨m1, hm1, hle1⟩ :=
          loopB_le_cand (List.range (mb + 1)) best (List.pairwise_lt_range _) hbm hc ht
        obtain ⟨m2, hm2, hle2⟩ := loopA_some_of_best_some l m1
        rw [← hm1] at hm2
        exact ⟨m2, by simpa [loopA, hs] using hm2, le_trans hle2 hle1⟩
      · obtain ⟨m2, hm2, hle2⟩ := ih _ hpw'.2 ha hb hc ht
        exact ⟨m2, by simpa [loopA, hs] using hm2, hle2⟩

theorem loopA_good {t mb mc : ℕ} :
    ∀ (l : List ℕ) (best : Option ℕ),
      (∀ m, best = some m → t ≤ m ∧ Smooth5 m) →
      ∀ m, loopA t mb mc l best = some m → t ≤ m ∧ Smooth5 m := by
  intro l
  induction l with
  | nil => intro best hb m hm; exact hb m (by simpa [loopA] using hm)
  | cons a l ih =>
    intro best hb m hm
    by_cases hs : stopAt best (2 ^ a) = true
    · exact hb m (by simpa [loopA, hs] using hm)
    · rw [loopA, if_neg hs] at hm
      exact ih _ (loopB_good ⟨a, rfl⟩ _ _ hb) m hm

theorem clog_le_log_add_one (b t : ℕ) (hb : 1 < b) (_ht : 1 ≤ t) :
    Nat.clog b t ≤ Nat.log b t + 1 := by
  rw [← fclog_eq_clog b t hb]
  unfold fclog
  by_cases h : t ≤ 1
  · simp [h]
  · rw [if_neg h, flog_eq_log b (t - 1) hb]
    have := Nat.log_mono_right (b := b) (show t - 1 ≤ t by omega)
    omega

theorem smoothSearch_good (t : ℕ) :
    ∀ m, smoothSearch t = some m → t ≤ m ∧ Smooth5 m := by
  intro m hm
  exact loopA_good _ none (by simp) m hm

theorem smoothSearch_covers (t a b c : ℕ) (ha : a ≤ Nat.log 2 t + 2)
    (hb : b ≤ Nat.log 3 t + 2) (hc : c ≤ Nat.log 5 t + 2)
    (ht : t ≤ 2 ^ a * 3 ^ b * 5 ^ c) :
    ∃ m, smoothSearch t = some m ∧ m ≤ 2 ^ a * 3 ^ b * 5 ^ c := by
  unfold smoothSearch
  rw [flog_eq_log 2 t (by norm_num), flog_eq_log 3 t (by norm_num),
    flog_eq_log 5 t (by norm_num)]
  exact loopA_le_cand _ none (List.pairwise_lt_range _)
    (List.mem_range.mpr (by omega)) hb hc ht

theorem smoothSearch_spec (t : ℕ) (ht : 1 ≤ t) :
    ∃ m, smoothSearch t = some m ∧ t ≤ m ∧ Smooth5 m ∧
      ∀ k, Smooth5 k → t ≤ k → m ≤ k := by
  have htne : t ≠ 0 := by omega
  set A := Nat.log 2 t with hA
  have hclog : Nat.clog 2 t ≤ A + 1 := clog_le_log_add_one 2 t (by norm_num) ht
  have hwit : t ≤ 2 ^ Nat.clog 2 t * 3 ^ 0 * 5 ^ 0 := by
    simpa using Nat.le_pow_clog (by norm_num) t
  obtain ⟨m, hm, hmle⟩ := smoothSearch_covers t (Nat.clog 2 t) 0 0
    (by omega) (by omega) (by omega) hwit
  simp only [pow_zero, mul_one] at hmle
  obtain ⟨htm, hsm⟩ := smoothSearch_good t m hm
  have h2A : (2 : ℕ) ^ A ≤ t := Nat.pow_log_le_self 2 htne
  have hm2t : m ≤ 2 * t := by
    have h1 : (2 : ℕ) ^ Nat.clog 2 t ≤ 2 ^ (A + 1) :=
      Nat.pow_le_pow_right (by norm_num) hclog
    have h2 : (2 : ℕ) ^ (A + 1) = 2 * 2 ^ A := by ring
    omega
  refine ⟨m, hm, htm, hsm, ?_⟩
  rintro k ⟨a, b, c, rfl⟩ htk
  by_cases hin : a ≤ Nat.log 2 t + 2 ∧ b ≤ Nat.log 3 t + 2 ∧ c ≤ Nat.log 5 t + 2
  · obtain ⟨m', hm', hle'⟩ := smoothSearch_covers t a b c hin.1 hin.2.1 hin.2.2 htk
    rw [hm] at hm'
    cases hm'
    exact hle'
  · have hfac2 : (2 : ℕ) ^ a ≤ 2 ^ a * 3 ^ b * 5 ^ c := by
      have h3 : (1 : ℕ) ≤ 3 ^ b := Nat.one_le_pow _ _ (by norm_num)
      have h5 : (1 : ℕ) ≤ 5 ^ c := Nat.one_le_pow _ _ (by norm_num)
      calc (2 : ℕ) ^ a = 2 ^ a * 1 * 1 := by ring
        _ ≤ 2 ^ a * 3 ^ b * 5 ^ c := Nat.mul_le_mul (Nat.mul_le_mul_left _ h3) h5
    have hfac3 : (3 : ℕ) ^ b ≤ 2 ^ a * 3 ^ b * 5 ^ c := by
      have h2 : (1 : ℕ) ≤ 2 ^ a := Nat.one_le_pow _ _ (by norm_num)
      have h5 : (1 : ℕ) ≤ 5 ^ c := Nat.one_le_pow _ _ (by norm_num)
      calc (3 : ℕ) ^ b = 1 * 3 ^ b * 1 := by ring
        _ ≤ 2 ^ a * 3 ^ b * 5 ^ c := Nat.mul_le_mul (Nat.mul_le_mul h2 le_rfl) h5
    have hfac5 : (5 : ℕ) ^ c ≤ 2 ^ a * 3 ^ b * 5 ^ c := by
      have h2 : (1 : ℕ) ≤ 2 ^ a := Nat.one_le_pow _ _ (by norm_num)
      have h3 : (1 : ℕ) ≤ 3 ^ b := Nat.one_le_pow _ _ (by norm_num)
      calc (5 : ℕ) ^ c = 1 * 1 * 5 ^ c := by ring
        _ ≤ 2 ^ a * 3 ^ b * 5 ^ c := Nat.mul_le_mul (Nat.mul_le_mul h2 h3) le_rfl
    push_neg at hin
    rcases Nat.lt_or_ge (Nat.log 2 t + 2) a with ha | ha
    · have hstep : (2 : ℕ) ^ (A + 3) ≤ 2 ^ a := Nat.pow_le_pow_right (by norm_num) (by omega)
      have heq : (2 : ℕ) ^ (A + 3) = 8 * 2 ^ A := by ring
      have hm2 : m ≤ 2 ^ Nat.clog 2 t := hmle
      have h1 : (2 : ℕ) ^ Nat.clog 2 t ≤ 2 ^ (A + 1) :=
        Nat.pow_le_pow_right (by norm_num) hclog
      have h2 : (2 : ℕ) ^ (A + 1) = 2 * 2 ^ A := by ring
      omega
    · rcases Nat.lt_or_ge (Nat.log 3 t + 2) b with hbcase | hbcase
      · have hlog3 : t < 3 ^ (Nat.log 3 t + 1) := by
          have := Nat.lt_pow_succ_log_self (b := 3) (by norm_num) t
          simpa [Nat.succ_eq_add_one] using this
        have hstep : (3 : ℕ) ^ (Nat.log 3 t + 3) ≤ 3 ^ b :=
          Nat.pow_le_pow_right (by norm_num) (by omega)
        have heq : (3 : ℕ) ^ (Nat.log 3 t + 3) = 9 * 3 ^ (Nat.log 3 t + 1) := by ring
        omega
      · rcases Nat.lt_or_ge (Nat.log 5 t + 2) c with hccase | hccase
        · have hlog5 : t < 5 ^ (Nat.log 5 t + 1) := by
            have := Nat.lt_pow_succ_log_self (b := 5) (by norm_num) t
            simpa [Nat.succ_eq_add_one] using this
          have hstep : (5 : ℕ) ^ (Nat.log 5 t + 3) ≤ 5 ^ c :=
            Nat.pow_le_pow_right (by norm_num) (by omega)
          have heq : (5 : ℕ) ^ (Nat.log 5 t + 3) = 25 * 5 ^ (Nat.log 5 t + 1) := by ring
          omega
        · have := hin (by omega) (by omega)
          omega

theorem next_5smooth_spec (n : ℚ) (hn : 0 < n) :
    ∃ m, next_5smooth n = .ok m ∧ Smooth5 m ∧ max 1 ⌈n⌉.toNat ≤ m ∧
      ∀ k, Smooth5 k → max 1 ⌈n⌉.toNat ≤ k → m ≤ k := by
  obtain ⟨m, hm, hle, hsm, hmin⟩ := smoothSearch_spec (max 1 ⌈n⌉.toNat) (le_max_left _ _)
  refine ⟨m, ?_, hsm, hle, hmin⟩
  simp [next_5smooth, hn, hm]

theorem next_5smooth_invalid (n : ℚ) (hn : ¬ 0 < n) :
    next_5smooth n = .error "n_min must be a positive number" := by
  simp [next_5smooth, hn]

/-- C2: for every positive `n_min`, `FFTSizePlanner.next_5smooth` returns the
smallest integer of the form `2^a * 3^b * 5^c` that is at least
`max 1 ⌈n_min⌉` (the result is 5-smooth, at least the target, and minimal
among such values), and it raises invalid-argument for every non-positive
`n_min`. -/
theorem next_5smooth_correct (n : ℚ) :
    (0 < n → ∃ m, next_5smooth n = .ok m ∧ Smooth5 m ∧ max 1 ⌈n⌉.toNat ≤ m ∧
      ∀ k, Smooth5 k → max 1 ⌈n⌉.toNat ≤ k → m ≤ k) ∧
    (¬ 0 < n → next_5smooth n = .error "n_min must be a positive number") :=
  ⟨next_5smooth_spec n, next_5smooth_invalid n⟩

/-- Witness for C2 at the spec's concrete scenario `next_5smooth(4097)` (the
minimal 5-smooth number at least 4097 is 4320) and at the invalid input 0. -/
theorem next_5smooth_correct_witness :
    (∃ m, next_5smooth 4097 = .ok m ∧ Smooth5 m ∧ max 1 ⌈(4097 : ℚ)⌉.toNat ≤ m ∧
      ∀ k, Smooth5 k → max 1 ⌈(4097 : ℚ)⌉.toNat ≤ k → m ≤ k) ∧
    next_5smooth 0 = .error "n_min must be a positive number" ∧
    next_5smooth 4097 = .ok 4320 :=
  ⟨(next_5smooth_correct 4097).1 (by norm_num), (next_5smooth_correct 0).2 (by norm_num),
    by decide⟩

theorem next_pow2_pos_ge (n : ℚ) (hn : 0 < n) :
    ∃ m : ℕ, next_pow2 n = .ok m ∧ 1 ≤ m ∧ n ≤ (m : ℚ) := by
  obtain ⟨k, hk, hge, _⟩ := next_pow2_spec n hn
  exact ⟨2 ^ k, hk, Nat.one_le_pow _ _ (by norm_num), le_trans (le_max_right 2 n) hge⟩

theorem next_5smooth_pos_ge (n : ℚ) (hn : 0 < n) :
    ∃ m : ℕ, next_5smooth n = .ok m ∧ 1 ≤ m ∧ n ≤ (m : ℚ) := by
  obtain ⟨m, hm, _, hge, _⟩ := next_5smooth_spec n hn
  have h1 : 1 ≤ m := le_trans (le_max_left _ _) hge
  have hcp : (0 : ℤ) < ⌈n⌉ := Int.ceil_pos.mpr hn
  have htn : ((⌈n⌉.toNat : ℤ)) = ⌈n⌉ := Int.toNat_of_nonneg (by omega)
  have h2 : n ≤ (m : ℚ) := by
    have h3 : ⌈n⌉.toNat ≤ m := le_trans (le_max_right _ _) hge
    have h4 : n ≤ (⌈n⌉ : ℚ) := Int.le_ceil n
    have h5 : ((⌈n⌉ : ℚ)) ≤ (m : ℚ) := by
      rw [← htn]
      exact_mod_cast h3
    exact le_trans h4 h5
  exact ⟨m, hm, h1, h2⟩

theorem plannerOf_spec {s : String} {p : ℚ → Except String ℕ} (hp : plannerOf s = some p)
    (n : ℚ) (hn : 0 < n) : ∃ m : ℕ, p n = .ok m ∧ 1 ≤ m ∧ n ≤ (m : ℚ) := by
  unfold plannerOf at hp
  by_cases h1 : s = "next_pow2"
  · rw [if_pos h1] at hp
    cases hp
    exact next_pow2_pos_ge n hn
  · rw [if_neg h1] at hp
    by_cases h2 : s = "next_5smooth"
    · rw [if_pos h2] at hp
      cases hp
      exact next_5smooth_pos_ge n hn
    · rw [if_neg h2] at hp
      cases hp

theorem ENBW_pos {w : String} {e : ℚ} (hw : ENBW w = some e) : 0 < e := by
  unfold ENBW at hw
  by_cases h1 : w = "rect"
  · rw [if_pos h1] at hw; cases hw; norm_num
  · rw [if_neg h1] at hw
    by_cases h2 : w = "hann"
    · rw [if_pos h2] at hw; cases hw; norm_num
    · rw [if_neg h2] at hw
      by_cases h3 : w = "hamming"
      · rw [if_pos h3] at hw; cases hw; norm_num
      · rw [if_neg h3] at hw
        by_cases h4 : w = "blackman"
        · rw [if_pos h4] at hw; cases hw; norm_num
        · rw [if_neg h4] at hw; cases hw

theorem plan_capture_eval {rbw fs bw ov : ℚ} {w sp : String} {K : ℤ} {enbw : ℚ}
    {p : ℚ → Except String ℕ} {m : ℕ}
    (hw : ENBW w = some enbw) (hov : 0 ≤ ov ∧ ov < 1) (hK : 1 ≤ K)
    (hmin : ¬ min rbw (min fs bw) ≤ 0) (hsp : plannerOf sp = some p)
    (hm : p (enbw * fs / rbw) = .ok m) (hm1 : 1 ≤ m) :
    plan_capture_parameters rbw fs bw w ov K sp = .ok
      ⟨fs,
       max 1 ⌈bw / fs⌉ * ((m : ℤ) + (K - 1) * ((m : ℤ) - ⌊ov * (((m : ℤ) : ℚ))⌋)),
       enbw * fs / (((m : ℕ) : ℤ) : ℚ),
       ((max 1 ⌈bw / fs⌉ : ℤ) : ℚ) *
         ((((m : ℤ) + (K - 1) * ((m : ℤ) - ⌊ov * (((m : ℤ) : ℚ))⌋) : ℤ) : ℚ) / fs)⟩ := by
  have hstep : ⌊ov * (((m : ℤ) : ℚ))⌋ < (m : ℤ) := by
    have hmq : (0 : ℚ) < ((m : ℤ) : ℚ) := by exact_mod_cast hm1
    have hlt : ov * (((m : ℤ) : ℚ)) < ((m : ℤ) : ℚ) := by
      calc ov * (((m : ℤ) : ℚ)) < 1 * (((m : ℤ) : ℚ)) :=
        mul_lt_mul_of_pos_right hov.2 hmq
        _ = ((m : ℤ) : ℚ) := one_mul _
    exact Int.floor_lt.mpr hlt
  unfold plan_capture_parameters
  simp only [hw]
  rw [if_neg (not_not_intro hov), if_neg (not_not_intro hK), if_neg hmin]
  simp only [hsp, hm]
  rw [if_neg (by omega : ¬ ((m : ℤ) ≤ 0)), if_neg (by omega : ¬ ((m : ℤ) - ⌊ov * (((m : ℤ) : ℚ))⌋ ≤ 0))]

theorem plan_welch_eval {rbw fs bw ov : ℚ} {w sp : String} {K : ℤ} {enbw : ℚ}
    {p : ℚ → Except String ℕ} {m : ℕ}
    (hw : ENBW w = some enbw) (hov : 0 ≤ ov ∧ ov < 1) (hK : 1 ≤ K)
    (hmin : ¬ min rbw (min fs bw) ≤ 0) (hsp : plannerOf sp = some p)
    (hm : p (enbw * fs / rbw) = .ok m) (hm1 : 1 ≤ m) :
    plan_welch_parameters rbw fs bw w ov K sp = .ok
      ⟨w, (m : ℤ), ⌊ov * (((m : ℤ) : ℚ))⌋, (m : ℤ), "density", "mean"⟩ := by
  have hstep : ⌊ov * (((m : ℤ) : ℚ))⌋ < (m : ℤ) := by
    have hmq : (0 : ℚ) < ((m : ℤ) : ℚ) := by exact_mod_cast hm1
    have hlt : ov * (((m : ℤ) : ℚ)) < ((m : ℤ) : ℚ) := by
      calc ov * (((m : ℤ) : ℚ)) < 1 * (((m : ℤ) : ℚ)) :=
        mul_lt_mul_of_pos_right hov.2 hmq
        _ = ((m : ℤ) : ℚ) := one_mul _
    exact Int.floor_lt.mpr hlt
  unfold plan_welch_parameters
  simp only [hw]
  rw [if_neg (not_not_intro hov), if_neg (not_not_intro hK), if_neg hmin]
  simp only [hsp, hm]
  rw [if_neg (by omega : ¬ ((m : ℤ) - ⌊ov * (((m : ℤ) : ℚ))⌋ ≤ 0))]

/-- Behavior classes of the attributes that `getattr(FFTSizePlanner, name,
None)` can return. The source's planner dispatch accepts any callable class
attribute, not only the two documented strategies: `strategy` carries one of
the two classmethods; `retInt` models an inherited callable whose call on the
float `nfft_min`, followed by the source's `int` coercion, yields a fixed
integer (`object.__sizeof__` of a CPython float is 24 bytes;
`type.__instancecheck__` of a float is `False`, which `int` turns into 0);
`hashAttr` models `object.__hash__`, whose slot bypasses `float.__hash__` and
returns a value derived from the address of its argument; `raising` groups
the inherited callables whose call with the single float argument, or the
`int` coercion of its result, raises a `TypeError` or `ValueError`. -/
inductive PlannerAttr where
  | strategy : (ℚ → Except String ℕ) → PlannerAttr
  | retInt : ℤ → PlannerAttr
  | hashAttr : PlannerAttr
  | raising : PlannerAttr

/-- Callable attributes of `FFTSizePlanner` (CPython 3.11/3.12: inherited
from `object`, plus methods reached on the metaclass `type`) whose call with
the single argument `nfft_min`, or the `int` coercion of the result, raises:
comparison and attribute slots called with a missing argument, constructors
and hooks that reject a float argument, and results (`None`, classes, lists,
tuples, `NotImplemented`, unparsable text) that `int` rejects. On CPython
3.10 the `__getstate__` entry is absent; the name then resolves to no
attribute, which the dispatch also rejects. -/
def raisingAttrs : List String :=
  ["__class__", "__delattr__", "__dir__", "__eq__", "__format__", "__ge__",
   "__getattribute__", "__getstate__", "__gt__", "__init__",
   "__init_subclass__", "__le__", "__lt__", "__ne__", "__new__", "__reduce__",
   "__reduce_ex__", "__repr__", "__setattr__", "__str__", "__subclasshook__",
   "mro", "__call__", "__subclasscheck__", "__subclasses__", "__prepare__",
   "__or__", "__ror__"]

/-- Models the source's planner dispatch, `getattr(FFTSizePlanner,
size_planner, None)` followed by the `callable` test: `none` when the class
has no such attribute or the attribute is not callable (the data attributes
`__doc__`, `__module__`, `__dict__`, `__weakref__`, `__name__`, `__bases__`,
`__mro__`, `__annotations__` and the like), otherwise the behavior class of
the callable attribute found. -/
def getattrPlanner (s : String) : Option PlannerAttr :=
  if s = "next_pow2" then some (.strategy next_pow2)
  else if s = "next_5smooth" then some (.strategy next_5smooth)
  else if s = "__sizeof__" then some (.retInt 24)
  else if s = "__instancecheck__" then some (.retInt 0)
  else if s = "__hash__" then some .hashAttr
  else if raisingAttrs.contains s then some .raising
  else none

/-- Models `int(planner(nfft_min))` for a dispatched attribute. The
strategies return their integer result; a `retInt` attribute yields its fixed
integer; `object.__hash__` hashes the address of the fresh `nfft_min` float
object — CPython rotates the pointer right by four bits, so a 16-aligned
address `ident` hashes to `ident / 16` — and thus depends on `ident`, not on
the numeric argument; the `raising` attributes raise. -/
def attrCall : PlannerAttr → ℕ → ℚ → Except String ℤ
  | .strategy f, _, q => Except.map (fun n : ℕ => (n : ℤ)) (f q)
  | .retInt k, _, _ => .ok k
  | .hashAttr, ident, _ => .ok ((ident / 16 : ℕ) : ℤ)
  | .raising, _, _ => .error "TypeError or ValueError raised by the planner call"

/-- Models `plan_capture_parameters` with the source's full `getattr`
dispatch (`getattrPlanner`). The extra argument `ident` is the address of the
fresh float object holding `nfft_min`, which only `object.__hash__` reads. -/
def plan_capture_parameters_src (rbw_hz fs_hz bw_hz : ℚ) (window : String)
    (overlap : ℚ) (K : ℤ) (size_planner : String) (ident : ℕ) :
    Except String CapturePlan :=
  match ENBW window with
  | none => .error "Unknown window"
  | some enbw =>
    if ¬ (0 ≤ overlap ∧ overlap < 1) then .error "overlap must be in the interval from 0 to 1"
    else if ¬ 1 ≤ K then .error "K must be an integer at least 1"
    else if min rbw_hz (min fs_hz bw_hz) ≤ 0 then .error "rbw_hz, fs_hz, and bw_hz must be positive"
    else
      match getattrPlanner size_planner with
      | none => .error "Unknown size_planner"
      | some attr =>
        let nfft_min : ℚ := enbw * fs_hz / rbw_hz
        match attrCall attr ident nfft_min with
        | .error e => .error e
        | .ok nfft =>
          if nfft ≤ 0 then .error "computed nfft must be positive"
          else
            let nperseg : ℤ := nfft
            let noverlap : ℤ := ⌊overlap * (nperseg : ℚ)⌋
            let step : ℤ := nperseg - noverlap
            if step ≤ 0 then .error "nperseg minus noverlap must be positive; reduce overlap"
            else
              let rbw_eff : ℚ := enbw * fs_hz / (nfft : ℚ)
              let samples_per_chunk : ℤ := nperseg + (K - 1) * step
              let time_per_chunk : ℚ := (samples_per_chunk : ℚ) / fs_hz
              let chunks : ℤ := max 1 ⌈bw_hz / fs_hz⌉
              .ok ⟨fs_hz, chunks * samples_per_chunk, rbw_eff, (chunks : ℚ) * time_per_chunk⟩

/-- Models `plan_welch_parameters` with the source's full `getattr` dispatch;
as in the source, the lookup happens after `nfft_min` is computed, and there
is no defensive positivity check on `nfft`. -/
def plan_welch_parameters_src (rbw_hz fs_hz bw_hz : ℚ) (window : String)
    (overlap : ℚ) (K : ℤ) (size_planner : String) (ident : ℕ) :
    Except String WelchParams :=
  match ENBW window with
  | none => .error "Unknown window"
  | some enbw =>
    if ¬ (0 ≤ overlap ∧ overlap < 1) then .error "overlap must be in the interval from 0 to 1"
    else if ¬ 1 ≤ K then .error "K must be an integer at least 1"
    else if min rbw_hz (min fs_hz bw_hz) ≤ 0 then .error "rbw_hz, fs_hz, and bw_hz must be positive"
    else
      let nfft_min : ℚ := enbw * fs_hz / rbw_hz
      match getattrPlanner size_planner with
      | none => .error "Unknown size_planner"
      | some attr =>
        match attrCall attr ident nfft_min with
        | .error e => .error e
        | .ok nfft =>
          let nperseg : ℤ := nfft
          let noverlap : ℤ := ⌊overlap * (nperseg : ℚ)⌋
          let step : ℤ := nperseg - noverlap
          if step ≤ 0 then .error "nperseg minus noverlap must be positive; reduce overlap"
          else .ok ⟨window, nperseg, noverlap, nfft, "density", "mean"⟩

/-- The invalid-argument conditions on which both entry points raise before
reaching the planner call: the four input validations, and a planner name at
which the dispatch finds nothing callable. -/
def PlanInvalidSrc (rbw fs bw : ℚ) (w : String) (ov : ℚ) (K : ℤ) (sp : String) : Prop :=
  ENBW w = none ∨ ¬ (0 ≤ ov ∧ ov < 1) ∨ ¬ 1 ≤ K ∨ min rbw (min fs bw) ≤ 0 ∨
    getattrPlanner sp = none

theorem getattrPlanner_strategy {s : String} {f : ℚ → Except String ℕ}
    (h : getattrPlanner s = some (.strategy f)) : plannerOf s = some f := by
  unfold getattrPlanner at h
  unfold plannerOf
  by_cases h1 : s = "next_pow2"
  · rw [if_pos h1] at h
    rw [if_pos h1]
    have h' := Option.some.inj h
    injection h' with h2
    rw [h2]
  · rw [if_neg h1] at h
    rw [if_neg h1]
    by_cases h2 : s = "next_5smooth"
    · rw [if_pos h2] at h
      rw [if_pos h2]
      have h' := Option.some.inj h
      injection h' with h3
      rw [h3]
    · rw [if_neg h2] at h
      rw [if_neg h2]
      by_cases h3 : s = "__sizeof__"
      · rw [if_pos h3] at h
        exact PlannerAttr.noConfusion (Option.some.inj h)
      · rw [if_neg h3] at h
        by_cases h4 : s = "__instancecheck__"
        · rw [if_pos h4] at h
          exact PlannerAttr.noConfusion (Option.some.inj h)
        · rw [if_neg h4] at h
          by_cases h5 : s = "__hash__"
          · rw [if_pos h5] at h
            exact PlannerAttr.noConfusion (Option.some.inj h)
          · rw [if_neg h5] at h
            by_cases h6 : raisingAttrs.contains s
            · rw [if_pos h6] at h
              exact PlannerAttr.noConfusion (Option.some.inj h)
            · rw [if_neg h6] at h
              cases h

theorem plan_capture_src_invalid {rbw fs bw ov : ℚ} {w sp : String} {K : ℤ} {ident : ℕ}
    (hbad : PlanInvalidSrc rbw fs bw w ov K sp) :
    ∃ e, plan_capture_parameters_src rbw fs bw w ov K sp ident = .error e := by
  unfold plan_capture_parameters_src
  rcases hw : ENBW w with _ | enbw
  · simp only [hw]
    exact ⟨_, rfl⟩
  · simp only [hw]
    by_cases h1 : 0 ≤ ov ∧ ov < 1
    · rw [if_neg (not_not_intro h1)]
      by_cases h2 : 1 ≤ K
      · rw [if_neg (not_not_intro h2)]
        by_cases h3 : min rbw (min fs bw) ≤ 0
        · rw [if_pos h3]
          exact ⟨_, rfl⟩
        · rw [if_neg h3]
          rcases hbad with h | h | h | h | h
          · rw [hw] at h; cases h
          · exact absurd h1 h
          · exact absurd h2 h
          · exact absurd h h3
          · simp only [h]
            exact ⟨_, rfl⟩
      · rw [if_pos h2]
        exact ⟨_, rfl⟩
    · rw [if_pos h1]
      exact ⟨_, rfl⟩

theorem plan_welch_src_invalid {rbw fs bw ov : ℚ} {w sp : String} {K : ℤ} {ident : ℕ}
    (hbad : PlanInvalidSrc rbw fs bw w ov K sp) :
    ∃ e, plan_welch_parameters_src rbw fs bw w ov K sp ident = .error e := by
  unfold plan_welch_parameters_src
  rcases hw : ENBW w with _ | enbw
  · simp only [hw]
    exact ⟨_, rfl⟩
  · simp only [hw]
    by_cases h1 : 0 ≤ ov ∧ ov < 1
    · rw [if_neg (not_not_intro h1)]
      by_cases h2 : 1 ≤ K
      · rw [if_neg (not_not_intro h2)]
        by_cases h3 : min rbw (min fs bw) ≤ 0
        · rw [if_pos h3]
          exact ⟨_, rfl⟩
        · rw [if_neg h3]
          rcases hbad with h | h | h | h | h
          · rw [hw] at h; cases h
          · exact absurd h1 h
          · exact absurd h2 h
          · exact absurd h h3
          · simp only [h]
            exact ⟨_, rfl⟩
      · rw [if_pos h2]
        exact ⟨_, rfl⟩
    · rw [if_pos h1]
      exact ⟨_, rfl⟩

theorem min_pos_of_not_le {rbw fs bw : ℚ} (h : ¬ min rbw (min fs bw) ≤ 0) :
    0 < rbw ∧ 0 < fs ∧ 0 < bw := by
  push_neg at h
  rw [lt_min_iff, lt_min_iff] at h
  exact ⟨h.1, h.2.1, h.2.2⟩

theorem enbw_hann : ENBW "hann" = some (3 / 2) := by
  unfold ENBW
  rw [if_neg (by decide : ¬ ("hann" = "rect")), if_pos rfl]

theorem planner_5smooth : plannerOf "next_5smooth" = some next_5smooth := by
  unfold plannerOf
  rw [if_neg (by decide : ¬ ("next_5smooth" = "next_pow2")), if_pos rfl]

theorem smooth_3000 : next_5smooth ((3 / 2 : ℚ) * 2000000 / 1000) = .ok 3000 := by
  have h : (3 / 2 : ℚ) * 2000000 / 1000 = 3000 := by norm_num
  rw [h]
  decide

theorem plan_capture_src_eval {rbw fs bw ov : ℚ} {w sp : String} {K : ℤ} {enbw : ℚ}
    {attr : PlannerAttr} {ident : ℕ} {n : ℤ}
    (hw : ENBW w = some enbw) (hov : 0 ≤ ov ∧ ov < 1) (hK : 1 ≤ K)
    (hmin : ¬ min rbw (min fs bw) ≤ 0) (hsp : getattrPlanner sp = some attr)
    (hm : attrCall attr ident (enbw * fs / rbw) = .ok n) (hm1 : 0 < n) :
    plan_capture_parameters_src rbw fs bw w ov K sp ident = .ok
      ⟨fs, max 1 ⌈bw / fs⌉ * (n + (K - 1) * (n - ⌊ov * ((n : ℚ))⌋)),
       enbw * fs / ((n : ℚ)),
       ((max 1 ⌈bw / fs⌉ : ℤ) : ℚ) *
         (((n + (K - 1) * (n - ⌊ov * ((n : ℚ))⌋) : ℤ) : ℚ) / fs)⟩ := by
  have hstep : ⌊ov * ((n : ℚ))⌋ < n := by
    have hnq : (0 : ℚ) < ((n : ℚ)) := by exact_mod_cast hm1
    have hlt : ov * ((n : ℚ)) < ((n : ℚ)) := by
      calc ov * ((n : ℚ)) < 1 * ((n : ℚ)) := mul_lt_mul_of_pos_right hov.2 hnq
        _ = ((n : ℚ)) := one_mul _
    exact Int.floor_lt.mpr hlt
  unfold plan_capture_parameters_src
  simp only [hw]
  rw [if_neg (not_not_intro hov), if_neg (not_not_intro hK), if_neg hmin]
  simp only [hsp, hm]
  rw [if_neg (by omega : ¬ (n ≤ 0)), if_neg (by omega : ¬ (n - ⌊ov * ((n : ℚ))⌋ ≤ 0))]

theorem plan_welch_src_eval {rbw fs bw ov : ℚ} {w sp : String} {K : ℤ} {enbw : ℚ}
    {attr : PlannerAttr} {ident : ℕ} {n : ℤ}
    (hw : ENBW w = some enbw) (hov : 0 ≤ ov ∧ ov < 1) (hK : 1 ≤ K)
    (hmin : ¬ min rbw (min fs bw) ≤ 0) (hsp : getattrPlanner sp = some attr)
    (hm : attrCall attr ident (enbw * fs / rbw) = .ok n) (hm1 : 0 < n) :
    plan_welch_parameters_src rbw fs bw w ov K sp ident = .ok
      ⟨w, n, ⌊ov * ((n : ℚ))⌋, n, "density", "mean"⟩ := by
  have hstep : ⌊ov * ((n : ℚ))⌋ < n := by
    have hnq : (0 : ℚ) < ((n : ℚ)) := by exact_mod_cast hm1
    have hlt : ov * ((n : ℚ)) < ((n : ℚ)) := by
      calc ov * ((n : ℚ)) < 1 * ((n : ℚ)) := mul_lt_mul_of_pos_right hov.2 hnq
        _ = ((n : ℚ)) := one_mul _
    exact Int.floor_lt.mpr hlt
  unfold plan_welch_parameters_src
  simp only [hw]
  rw [if_neg (not_not_intro hov), if_neg (not_not_intro hK), if_neg hmin]
  simp only [hsp, hm]
  rw [if_neg (by omega : ¬ (n - ⌊ov * ((n : ℚ))⌋ ≤ 0))]

theorem plan_capture_src_attr_error {rbw fs bw ov : ℚ} {w sp : String} {K : ℤ} {enbw : ℚ}
    {attr : PlannerAttr} {ident : ℕ} {e : String}
    (hw : ENBW w = some enbw) (hov : 0 ≤ ov ∧ ov < 1) (hK : 1 ≤ K)
    (hmin : ¬ min rbw (min fs bw) ≤ 0) (hsp : getattrPlanner sp = some attr)
    (hm : attrCall attr ident (enbw * fs / rbw) = .error e) :
    plan_capture_parameters_src rbw fs bw w ov K sp ident = .error e := by
  unfold plan_capture_parameters_src
  simp only [hw]
  rw [if_neg (not_not_intro hov), if_neg (not_not_intro hK), if_neg hmin]
  simp only [hsp, hm]

theorem plan_welch_src_attr_error {rbw fs bw ov : ℚ} {w sp : String} {K : ℤ} {enbw : ℚ}
    {attr : PlannerAttr} {ident : ℕ} {e : String}
    (hw : ENBW w = some enbw) (hov : 0 ≤ ov ∧ ov < 1) (hK : 1 ≤ K)
    (hmin : ¬ min rbw (min fs bw) ≤ 0) (hsp : getattrPlanner sp = some attr)
    (hm : attrCall attr ident (enbw * fs / rbw) = .error e) :
    plan_welch_parameters_src rbw fs bw w ov K sp ident = .error e := by
  unfold plan_welch_parameters_src
  simp only [hw]
  rw [if_neg (not_not_intro hov), if_neg (not_not_intro hK), if_neg hmin]
  simp only [hsp, hm]

theorem plan_capture_src_nonpos {rbw fs bw ov : ℚ} {w sp : String} {K : ℤ} {enbw : ℚ}
    {attr : PlannerAttr} {ident : ℕ} {n : ℤ}
    (hw : ENBW w = some enbw) (hov : 0 ≤ ov ∧ ov < 1) (hK : 1 ≤ K)
    (hmin : ¬ min rbw (min fs bw) ≤ 0) (hsp : getattrPlanner sp = some attr)
    (hm : attrCall attr ident (enbw * fs / rbw) = .ok n) (hn : n ≤ 0) :
    ∃ e, plan_capture_parameters_src rbw fs bw w ov K sp ident = .error e := by
  unfold plan_capture_parameters_src
  simp only [hw]
  rw [if_neg (not_not_intro hov), if_neg (not_not_intro hK), if_neg hmin]
  simp only [hsp, hm]
  rw [if_pos hn]
  exact ⟨_, rfl⟩

theorem plan_welch_src_nonpos {rbw fs bw ov : ℚ} {w sp : String} {K : ℤ} {enbw : ℚ}
    {attr : PlannerAttr} {ident : ℕ} {n : ℤ}
    (hw : ENBW w = some enbw) (hov : 0 ≤ ov ∧ ov < 1) (hK : 1 ≤ K)
    (hmin : ¬ min rbw (min fs bw) ≤ 0) (hsp : getattrPlanner sp = some attr)
    (hm : attrCall attr ident (enbw * fs / rbw) = .ok n) (hn : n ≤ 0) :
    ∃ e, plan_welch_parameters_src rbw fs bw w ov K sp ident = .error e := by
  have hnq : ((n : ℚ)) ≤ 0 := by exact_mod_cast hn
  have hfl : n ≤ ⌊ov * ((n : ℚ))⌋ := by
    rw [Int.le_floor]
    nlinarith [mul_nonneg (by linarith [hov.2] : (0 : ℚ) ≤ 1 - ov)
      (by linarith : (0 : ℚ) ≤ -((n : ℚ)))]
  unfold plan_welch_parameters_src
  simp only [hw]
  rw [if_neg (not_not_intro hov), if_neg (not_not_intro hK), if_neg hmin]
  simp only [hsp, hm]
  rw [if_pos (by omega : n - ⌊ov * ((n : ℚ))⌋ ≤ 0)]
  exact ⟨_, rfl⟩

/-- C8 (corrected): both planning entry points raise invalid-argument on
every input with an unknown window, an overlap outside the unit interval,
`K` below 1, a non-positive `rbw_hz`, `fs_hz` or `bw_hz`, or a size-planner
name at which `getattr(FFTSizePlanner, name, None)` yields nothing callable
(an undefined name such as "fft", or a non-callable class attribute such as
"__doc__"); the failing call produces no result (the model is pure, so no
mutation is possible in either case). The original claim's stronger
size-planner clause — rejection of every undocumented name — is false of the
source: the dispatch accepts every callable class attribute, as
`planners_reject_invalid_cex` shows at "__sizeof__". -/
theorem planners_reject_invalid (rbw fs bw : ℚ) (w : String) (ov : ℚ) (K : ℤ) (sp : String)
    (ident : ℕ) (hbad : PlanInvalidSrc rbw fs bw w ov K sp) :
    (∃ e, plan_capture_parameters_src rbw fs bw w ov K sp ident = .error e) ∧
    (∃ e, plan_welch_parameters_src rbw fs bw w ov K sp ident = .error e) :=
  ⟨plan_capture_src_invalid hbad, plan_welch_src_invalid hbad⟩

/-- Counterexample to C8 as frozen: "__sizeof__" is not one of the two
documented strategy names, yet `getattr(FFTSizePlanner, "__sizeof__")` is the
callable `object.__sizeof__`, so both entry points accept it and planning
succeeds with `nfft = int(object.__sizeof__(nfft_min)) = 24` (a CPython float
occupies 24 bytes) instead of raising invalid-argument. -/
theorem planners_reject_invalid_cex :
    plannerOf "__sizeof__" = none ∧
    plan_capture_parameters_src 1000 2000000 20000000 "hann" 0 8 "__sizeof__" 0 =
      .ok ⟨2000000, 1920, 125000, 3 / 3125⟩ ∧
    plan_welch_parameters_src 1000 2000000 20000000 "hann" 0 8 "__sizeof__" 0 =
      .ok ⟨"hann", 24, 0, 24, "density", "mean"⟩ := by
  have hmin : ¬ min (1000 : ℚ) (min 2000000 20000000) ≤ 0 := by norm_num
  have hsp : getattrPlanner "__sizeof__" = some (.retInt 24) := rfl
  have hmc : attrCall (PlannerAttr.retInt 24) 0 ((3 / 2 : ℚ) * 2000000 / 1000) =
      .ok 24 := rfl
  refine ⟨rfl, ?_, ?_⟩
  · rw [@plan_capture_src_eval 1000 2000000 20000000 0 "hann" "__sizeof__" 8 (3 / 2)
      (PlannerAttr.retInt 24) 0 24 enbw_hann (by norm_num) (by norm_num) hmin hsp hmc
      (by norm_num)]
    simp only [Except.ok.injEq, CapturePlan.mk.injEq]
    norm_num
  · rw [@plan_welch_src_eval 1000 2000000 20000000 0 "hann" "__sizeof__" 8 (3 / 2)
      (PlannerAttr.retInt 24) 0 24 enbw_hann (by norm_num) (by norm_num) hmin hsp hmc
      (by norm_num)]
    simp only [Except.ok.injEq, WelchParams.mk.injEq]
    norm_num

/-- Witness for C8 at concrete invalid inputs: unknown window "kaiser"; then
the undefined planner name "fft"; then the non-callable class attribute
"__doc__" as planner name. -/
theorem planners_reject_invalid_witness :
    ((∃ e, plan_capture_parameters_src 1000 2000000 20000000 "kaiser" 0 8 "next_5smooth" 0 =
        .error e) ∧
      (∃ e, plan_welch_parameters_src 1000 2000000 20000000 "kaiser" 0 8 "next_5smooth" 0 =
        .error e)) ∧
    ((∃ e, plan_capture_parameters_src 1000 2000000 20000000 "hann" 0 8 "fft" 0 = .error e) ∧
      (∃ e, plan_welch_parameters_src 1000 2000000 20000000 "hann" 0 8 "fft" 0 = .error e)) ∧
    ((∃ e, plan_capture_parameters_src 1000 2000000 20000000 "hann" 0 8 "__doc__" 0 =
        .error e) ∧
      (∃ e, plan_welch_parameters_src 1000 2000000 20000000 "hann" 0 8 "__doc__" 0 =
        .error e)) :=
  ⟨planners_reject_invalid 1000 2000000 20000000 "kaiser" 0 8 "next_5smooth" 0
      (Or.inl (by decide)),
    planners_reject_invalid 1000 2000000 20000000 "hann" 0 8 "fft" 0
      (Or.inr (Or.inr (Or.inr (Or.inr rfl)))),
    planners_reject_invalid 1000 2000000 20000000 "hann" 0 8 "__doc__" 0
      (Or.inr (Or.inr (Or.inr (Or.inr rfl))))⟩

theorem agree_src_of_errors {rbw fs bw ov : ℚ} {w sp : String} {K : ℤ} {i j : ℕ}
    (he1 : ∃ e, plan_capture_parameters_src rbw fs bw w ov K sp i = .error e)
    (he2 : ∃ e, plan_welch_parameters_src rbw fs bw w ov K sp j = .error e) :
    ((∃ P, plan_capture_parameters_src rbw fs bw w ov K sp i = .ok P) ↔
      (∃ W, plan_welch_parameters_src rbw fs bw w ov K sp j = .ok W)) ∧
    ∀ P W, plan_capture_parameters_src rbw fs bw w ov K sp i = .ok P →
      plan_welch_parameters_src rbw fs bw w ov K sp j = .ok W →
      W.nperseg = W.nfft ∧ W.noverlap = ⌊ov * ((W.nfft : ℚ))⌋ ∧
      P.sample_rate = fs ∧
      (∀ enbw, ENBW w = some enbw → P.rbw_eff = enbw * fs / ((W.nfft : ℚ))) ∧
      P.samples = max 1 ⌈bw / fs⌉ * (W.nperseg + (K - 1) * (W.nperseg - W.noverlap)) ∧
      P.time = ((max 1 ⌈bw / fs⌉ : ℤ) : ℚ) *
        (((W.nperseg + (K - 1) * (W.nperseg - W.noverlap) : ℤ) : ℚ) / fs) := by
  obtain ⟨e1, he1⟩ := he1
  obtain ⟨e2, he2⟩ := he2
  refine ⟨⟨?_, ?_⟩, ?_⟩
  · rintro ⟨P, hP⟩
    rw [he1] at hP
    cases hP
  · rintro ⟨W, hW⟩
    rw [he2] at hW
    cases hW
  · intro P W hP hW
    rw [he1] at hP
    cases hP

/-- C9 (corrected): on every input whose size-planner name does not dispatch
to the id-dependent `object.__hash__`, and for any placements of the two
fresh `nfft_min` float objects, the two planning entry points either both
raise or both succeed, and on success `plan_welch_parameters` returns the
record `(window, nperseg, noverlap, nfft, "density", "mean")` computed from
the same `nfft` (`nperseg = nfft`, `noverlap = floor(overlap*nperseg)`) that
`plan_capture_parameters` uses in its sample and time accounting. With
"__hash__" the dispatched callable returns an address-derived `nfft`, so the
two results can differ (`planners_agree_cex`). -/
theorem planners_agree (rbw fs bw : ℚ) (w : String) (ov : ℚ) (K : ℤ) (sp : String)
    (i j : ℕ) (hna : getattrPlanner sp ≠ some PlannerAttr.hashAttr) :
    ((∃ P, plan_capture_parameters_src rbw fs bw w ov K sp i = .ok P) ↔
      (∃ W, plan_welch_parameters_src rbw fs bw w ov K sp j = .ok W)) ∧
    ∀ P W, plan_capture_parameters_src rbw fs bw w ov K sp i = .ok P →
      plan_welch_parameters_src rbw fs bw w ov K sp j = .ok W →
      W.nperseg = W.nfft ∧ W.noverlap = ⌊ov * ((W.nfft : ℚ))⌋ ∧
      P.sample_rate = fs ∧
      (∀ enbw, ENBW w = some enbw → P.rbw_eff = enbw * fs / ((W.nfft : ℚ))) ∧
      P.samples = max 1 ⌈bw / fs⌉ * (W.nperseg + (K - 1) * (W.nperseg - W.noverlap)) ∧
      P.time = ((max 1 ⌈bw / fs⌉ : ℤ) : ℚ) *
        (((W.nperseg + (K - 1) * (W.nperseg - W.noverlap) : ℤ) : ℚ) / fs) := by
  rcases Option.eq_none_or_eq_some (ENBW w) with hw | ⟨enbw, hw⟩
  · exact agree_src_of_errors (plan_capture_src_invalid (Or.inl hw))
      (plan_welch_src_invalid (Or.inl hw))
  · by_cases h1 : 0 ≤ ov ∧ ov < 1
    · by_cases h2 : 1 ≤ K
      · by_cases h3 : min rbw (min fs bw) ≤ 0
        · exact agree_src_of_errors
            (plan_capture_src_invalid (Or.inr (Or.inr (Or.inr (Or.inl h3)))))
            (plan_welch_src_invalid (Or.inr (Or.inr (Or.inr (Or.inl h3)))))
        · rcases Option.eq_none_or_eq_some (getattrPlanner sp) with hsp | ⟨attr, hsp⟩
          · exact agree_src_of_errors
              (plan_capture_src_invalid (Or.inr (Or.inr (Or.inr (Or.inr hsp)))))
              (plan_welch_src_invalid (Or.inr (Or.inr (Or.inr (Or.inr hsp)))))
          · obtain ⟨hrbw, hfs, hbw⟩ := min_pos_of_not_le h3
            have henbw := ENBW_pos hw
            have hnm : 0 < enbw * fs / rbw := div_pos (mul_pos henbw hfs) hrbw
            cases attr with
            | strategy f =>
              obtain ⟨m, hm, hm1, hge⟩ := plannerOf_spec (getattrPlanner_strategy hsp) _ hnm
              have hmc : attrCall (PlannerAttr.strategy f) i (enbw * fs / rbw) =
                  .ok ((m : ℤ)) := by
                have hr : attrCall (PlannerAttr.strategy f) i (enbw * fs / rbw) =
                    Except.map (fun k : ℕ => (k : ℤ)) (f (enbw * fs / rbw)) := rfl
                rw [hr, hm]
                rfl
              have hmc2 : attrCall (PlannerAttr.strategy f) j (enbw * fs / rbw) =
                  .ok ((m : ℤ)) := hmc
              have hn1 : (0 : ℤ) < (m : ℤ) := by exact_mod_cast hm1
              have hc := plan_capture_src_eval hw h1 h2 h3 hsp hmc hn1
              have hwl := plan_welch_src_eval hw h1 h2 h3 hsp hmc2 hn1
              refine ⟨⟨fun _ => ⟨_, hwl⟩, fun _ => ⟨_, hc⟩⟩, ?_⟩
              intro P W hP hW
              rw [hc] at hP
              rw [hwl] at hW
              cases hP
              cases hW
              refine ⟨rfl, rfl, rfl, ?_, rfl, rfl⟩
              intro enbw' hw'
              rw [hw] at hw'
              cases hw'
              rfl
            | retInt k =>
              have hmc : attrCall (PlannerAttr.retInt k) i (enbw * fs / rbw) = .ok k := rfl
              have hmc2 : attrCall (PlannerAttr.retInt k) j (enbw * fs / rbw) = .ok k := rfl
              by_cases hk : 0 < k
              · have hc := plan_capture_src_eval hw h1 h2 h3 hsp hmc hk
                have hwl := plan_welch_src_eval hw h1 h2 h3 hsp hmc2 hk
                refine ⟨⟨fun _ => ⟨_, hwl⟩, fun _ => ⟨_, hc⟩⟩, ?_⟩
                intro P W hP hW
                rw [hc] at hP
                rw [hwl] at hW
                cases hP
                cases hW
                refine ⟨rfl, rfl, rfl, ?_, rfl, rfl⟩
                intro enbw' hw'
                rw [hw] at hw'
                cases hw'
                rfl
              · exact agree_src_of_errors
                  (plan_capture_src_nonpos hw h1 h2 h3 hsp hmc (by omega))
                  (plan_welch_src_nonpos hw h1 h2 h3 hsp hmc2 (by omega))
            | hashAttr => exact absurd hsp hna
            | raising =>
              have hmc : attrCall PlannerAttr.raising i (enbw * fs / rbw) =
                  .error "TypeError or ValueError raised by the planner call" := rfl
              have hmc2 : attrCall PlannerAttr.raising j (enbw * fs / rbw) =
                  .error "TypeError or ValueError raised by the planner call" := rfl
              exact agree_src_of_errors
                ⟨_, plan_capture_src_attr_error hw h1 h2 h3 hsp hmc⟩
                ⟨_, plan_welch_src_attr_error hw h1 h2 h3 hsp hmc2⟩
      · exact agree_src_of_errors
          (plan_capture_src_invalid (Or.inr (Or.inr (Or.inl h2))))
          (plan_welch_src_invalid (Or.inr (Or.inr (Or.inl h2))))
    · exact agree_src_of_errors
        (plan_capture_src_invalid (Or.inr (Or.inl h1)))
        (plan_welch_src_invalid (Or.inr (Or.inl h1)))

/-- Counterexample to C9 as frozen: with size-planner "__hash__" the
dispatched callable is `object.__hash__`, whose result is derived from the
address of each entry point's own fresh `nfft_min` float, not from its
numeric value; at two different placements (addresses 1600 and 1632, hashing
to 100 and 102) both entry points succeed but the capture accounting does not
use the welch record's `nfft`: the sample counts disagree (8000 against
8160). -/
theorem planners_agree_cex :
    ∃ P W,
      plan_capture_parameters_src 1000 2000000 20000000 "hann" 0 8 "__hash__" 1600 = .ok P ∧
      plan_welch_parameters_src 1000 2000000 20000000 "hann" 0 8 "__hash__" 1632 = .ok W ∧
      P.samples ≠ max 1 ⌈(20000000 : ℚ) / 2000000⌉ *
        (W.nperseg + (8 - 1) * (W.nperseg - W.noverlap)) := by
  have hmin : ¬ min (1000 : ℚ) (min 2000000 20000000) ≤ 0 := by norm_num
  have hsp : getattrPlanner "__hash__" = some PlannerAttr.hashAttr := rfl
  have hc1 : attrCall PlannerAttr.hashAttr 1600 ((3 / 2 : ℚ) * 2000000 / 1000) =
      .ok 100 := rfl
  have hc2 : attrCall PlannerAttr.hashAttr 1632 ((3 / 2 : ℚ) * 2000000 / 1000) =
      .ok 102 := rfl
  have hc := @plan_capture_src_eval 1000 2000000 20000000 0 "hann" "__hash__" 8 (3 / 2)
    PlannerAttr.hashAttr 1600 100 enbw_hann (by norm_num) (by norm_num) hmin hsp hc1
    (by norm_num)
  have hwl := @plan_welch_src_eval 1000 2000000 20000000 0 "hann" "__hash__" 8 (3 / 2)
    PlannerAttr.hashAttr 1632 102 enbw_hann (by norm_num) (by norm_num) hmin hsp hc2
    (by norm_num)
  refine ⟨_, _, hc, hwl, ?_⟩
  norm_num

/-- Witness for C9 at the spec's concrete scenario (hann window, rbw 1 kHz,
fs 2 MHz, the documented 5-smooth strategy, nfft 3000). -/
theorem planners_agree_witness :
    ∃ P W,
      plan_capture_parameters_src 1000 2000000 20000000 "hann" 0 8 "next_5smooth" 0 = .ok P ∧
      plan_welch_parameters_src 1000 2000000 20000000 "hann" 0 8 "next_5smooth" 0 = .ok W ∧
      W.nperseg = W.nfft ∧ P.sample_rate = 2000000 := by
  have hmin : ¬ min (1000 : ℚ) (min 2000000 20000000) ≤ 0 := by norm_num
  have hsp : getattrPlanner "next_5smooth" = some (PlannerAttr.strategy next_5smooth) := rfl
  have hmc : attrCall (PlannerAttr.strategy next_5smooth) 0 ((3 / 2 : ℚ) * 2000000 / 1000) =
      .ok 3000 := by
    have hr : attrCall (PlannerAttr.strategy next_5smooth) 0 ((3 / 2 : ℚ) * 2000000 / 1000) =
        Except.map (fun k : ℕ => (k : ℤ)) (next_5smooth ((3 / 2 : ℚ) * 2000000 / 1000)) := rfl
    rw [hr, smooth_3000]
    rfl
  have hc := @plan_capture_src_eval 1000 2000000 20000000 0 "hann" "next_5smooth" 8 (3 / 2)
    (PlannerAttr.strategy next_5smooth) 0 3000 enbw_hann (by norm_num) (by norm_num) hmin
    hsp hmc (by norm_num)
  have hwl := @plan_welch_src_eval 1000 2000000 20000000 0 "hann" "next_5smooth" 8 (3 / 2)
    (PlannerAttr.strategy next_5smooth) 0 3000 enbw_hann (by norm_num) (by norm_num) hmin
    hsp hmc (by norm_num)
  refine ⟨_, _, hc, hwl, ?_, rfl⟩
  exact ((planners_agree 1000 2000000 20000000 "hann" 0 8 "next_5smooth" 0 0
    (by
      intro h
      have h2 : some (PlannerAttr.strategy next_5smooth) = some PlannerAttr.hashAttr := h
      exact PlannerAttr.noConfusion (Option.some.inj h2))).2 _ _ hc hwl).1

/-- C4: on every valid input combination (known window, overlap in the unit
interval, `K` at least 1, positive `rbw_hz`, `fs_hz`, `bw_hz`, known size
planner) planning succeeds and the output satisfies `rbw_eff ≤ rbw_hz`, with
equality exactly when the chosen size strategy realizes
`nfft_min = ENBW[window]*fs_hz/rbw_hz` exactly, and `noverlap < nperseg`. -/
theorem capture_plan_rbw_eff (rbw fs bw ov enbw : ℚ) (w sp : String) (K : ℤ)
    (p : ℚ → Except String ℕ)
    (hw : ENBW w = some enbw) (hov : 0 ≤ ov ∧ ov < 1) (hK : 1 ≤ K)
    (hpos : 0 < rbw ∧ 0 < fs ∧ 0 < bw) (hsp : plannerOf sp = some p) :
    ∃ P m, plan_capture_parameters rbw fs bw w ov K sp = .ok P ∧
      p (enbw * fs / rbw) = .ok m ∧ P.rbw_eff ≤ rbw ∧
      (P.rbw_eff = rbw ↔ ((m : ℕ) : ℚ) = enbw * fs / rbw) ∧
      ∀ W, plan_welch_parameters rbw fs bw w ov K sp = .ok W →
        W.noverlap < W.nperseg := by
  obtain ⟨hrbw, hfs, hbw⟩ := hpos
  have hmin : ¬ min rbw (min fs bw) ≤ 0 := by
    simp only [not_le, lt_min_iff]
    exact ⟨hrbw, hfs, hbw⟩
  have henbw := ENBW_pos hw
  have hnm : 0 < enbw * fs / rbw := div_pos (mul_pos henbw hfs) hrbw
  obtain ⟨m, hm, hm1, hge⟩ := plannerOf_spec hsp _ hnm
  have hc := plan_capture_eval hw hov hK hmin hsp hm hm1
  have hwl := plan_welch_eval hw hov hK hmin hsp hm hm1
  have hmq : (0 : ℚ) < (m : ℚ) := by exact_mod_cast hm1
  have hcast : (((m : ℕ) : ℤ) : ℚ) = (m : ℚ) := by push_cast; ring
  refine ⟨_, m, hc, hm, ?_, ?_, ?_⟩
  · show enbw * fs / (((m : ℕ) : ℤ) : ℚ) ≤ rbw
    rw [hcast, div_le_iff₀ hmq, mul_comm rbw (m : ℚ)]
    exact (div_le_iff₀ hrbw).mp hge
  · show enbw * fs / (((m : ℕ) : ℤ) : ℚ) = rbw ↔ ((m : ℕ) : ℚ) = enbw * fs / rbw
    rw [hcast, div_eq_iff (ne_of_gt hmq), eq_div_iff (ne_of_gt hrbw)]
    constructor <;> intro h <;> linear_combination -h
  · intro W hW
    rw [hwl] at hW
    cases hW
    show ⌊ov * (((m : ℤ) : ℚ))⌋ < ((m : ℕ) : ℤ)
    have hmq2 : (0 : ℚ) < ((m : ℤ) : ℚ) := by exact_mod_cast hm1
    refine Int.floor_lt.mpr ?_
    calc ov * (((m : ℤ) : ℚ)) < 1 * (((m : ℤ) : ℚ)) := mul_lt_mul_of_pos_right hov.2 hmq2
      _ = ((m : ℤ) : ℚ) := one_mul _

/-- Witness for C4 at the spec's concrete scenario (hann, rbw 1 kHz, fs
2 MHz, overlap 0.5, K 8, 5-smooth planner; `nfft_min = 3000` is exactly
realizable, so `rbw_eff = rbw`). -/
theorem capture_plan_rbw_eff_witness :
    ∃ P m,
      plan_capture_parameters 1000 2000000 20000000 "hann" (1 / 2) 8 "next_5smooth" = .ok P ∧
      next_5smooth ((3 / 2 : ℚ) * 2000000 / 1000) = .ok m ∧ P.rbw_eff ≤ 1000 ∧
      (P.rbw_eff = 1000 ↔ ((m : ℕ) : ℚ) = (3 / 2 : ℚ) * 2000000 / 1000) ∧
      ∀ W, plan_welch_parameters 1000 2000000 20000000 "hann" (1 / 2) 8 "next_5smooth" = .ok W →
        W.noverlap < W.nperseg :=
  capture_plan_rbw_eff 1000 2000000 20000000 (1 / 2) (3 / 2) "hann" "next_5smooth" 8
    next_5smooth enbw_hann (by norm_num) (by norm_num) (by norm_num) planner_5smooth

/-- The field invariants demanded of `SpectrumFrame` inputs: non-empty
all-finite PSD, positive finite `rbw_hz`, `averages` at least 1, positive
finite `vbw_hz` when present, finite `f_start_hz`. -/
def FrameInputsValid (psd : List PyF) (rbw f_start : PyF) (vbw : Option PyF)
    (averages : ℤ) : Prop :=
  psd ≠ [] ∧ (∀ x ∈ psd, x.isfinite = true) ∧ rbw.isfinite = true ∧ rbw.leZero = false ∧
    1 ≤ averages ∧ (∀ v ∈ vbw, v.isfinite = true ∧ v.leZero = false) ∧
    f_start.isfinite = true

instance (psd : List PyF) (rbw f_start : PyF) (vbw : Option PyF) (averages : ℤ) :
    Decidable (FrameInputsValid psd rbw f_start vbw averages) := by
  unfold FrameInputsValid
  infer_instance

theorem axis_chain {fs r : ℚ} (hr : 0 < r) (n : ℕ) :
    List.Chain' (· < ·) ((List.range n).map (fun i : ℕ => fs + r * (i : ℚ))) := by
  rw [List.chain'_map (fun i : ℕ => fs + r * (i : ℚ))]
  cases n with
  | zero => simp
  | succ k =>
    rw [List.chain'_range_succ]
    intro m _
    have hc : ((m : ℚ)) < ((m + 1 : ℕ) : ℚ) := by push_cast; linarith
    have := mul_lt_mul_of_pos_left hc hr
    linarith

theorem pos_of_fin_valid {x : PyF} (hf : x.isfinite = true) (hz : x.leZero = false) :
    0 < x.toQ := by
  cases x with
  | fin q =>
    simp [PyF.leZero] at hz
    simpa [PyF.toQ] using hz
  | pinf => simp [PyF.isfinite] at hf
  | ninf => simp [PyF.isfinite] at hf
  | nan => simp [PyF.isfinite] at hf

theorem mkSpectrumFrame_ok {psd : List PyF} {rbw f_start : PyF} {vbw : Option PyF}
    {window : Option String} {averages : ℤ} {noise_floor : Option PyF}
    {metadata : List (String × String)}
    (h : FrameInputsValid psd rbw f_start vbw averages) :
    mkSpectrumFrame psd rbw f_start vbw window averages noise_floor metadata = .ok
      ⟨psd.map PyF.toQ, rbw.toQ, f_start.toQ, vbw.map PyF.toQ, window, averages,
        noise_floor, metadata,
        (List.range psd.length).map (fun i : ℕ => f_start.toQ + rbw.toQ * (i : ℚ))⟩ := by
  obtain ⟨hne, hfin, hrf, hrz, hav, hvbw, hfs⟩ := h
  have hrpos : 0 < rbw.toQ := pos_of_fin_valid hrf hrz
  have hempty : psd.isEmpty = false := by
    cases psd with
    | nil => exact absurd rfl hne
    | cons x xs => rfl
  have hall : psd.all PyF.isfinite = true := List.all_eq_true.mpr hfin
  have hvb : vbwBad vbw = false := by
    cases vbw with
    | none => rfl
    | some v =>
      obtain ⟨hv1, hv2⟩ := hvbw v (by simp)
      simp [vbwBad, hv1, hv2]
  have c1 : ¬ (psd.isEmpty = true) := by simp [hempty]
  have c2 : ¬ ¬ (psd.all PyF.isfinite = true) := not_not_intro hall
  have c3 : ¬ (¬ rbw.isfinite = true ∨ rbw.leZero = true) := by simp [hrf, hrz]
  have c4 : ¬ (averages < 1) := by omega
  have c5 : ¬ (vbwBad vbw = true) := by simp [hvb]
  have c6 : ¬ ¬ (f_start.isfinite = true) := by simp [hfs]
  have c7 : ¬ ¬ List.Chain' (· < ·)
      ((List.range psd.length).map (fun i : ℕ => f_start.toQ + rbw.toQ * (i : ℚ))) :=
    not_not_intro (axis_chain hrpos psd.length)
  simp only [mkSpectrumFrame, List.length_map]
  rw [if_neg c1, if_neg c2, if_neg c3, if_neg c4, if_neg c5, if_neg c6, if_neg c7]

theorem mkSpectrumFrame_ok_valid {psd : List PyF} {rbw f_start : PyF} {vbw : Option PyF}
    {window : Option String} {averages : ℤ} {noise_floor : Option PyF}
    {metadata : List (String × String)} {sf : SpectrumFrame}
    (h : mkSpectrumFrame psd rbw f_start vbw window averages noise_floor metadata = .ok sf) :
    FrameInputsValid psd rbw f_start vbw averages := by
  unfold mkSpectrumFrame at h
  by_cases h0 : psd.isEmpty
  · rw [if_pos h0] at h; cases h
  · rw [if_neg h0] at h
    by_cases h1 : ¬ psd.all PyF.isfinite
    · rw [if_pos h1] at h; cases h
    · rw [if_neg h1] at h
      by_cases h2 : ¬ rbw.isfinite ∨ rbw.leZero
      · rw [if_pos h2] at h; cases h
      · rw [if_neg h2] at h
        by_cases h3 : averages < 1
        · rw [if_pos h3] at h; cases h
        · rw [if_neg h3] at h
          by_cases h4 : vbwBad vbw
          · rw [if_pos h4] at h; cases h
          · rw [if_neg h4] at h
            by_cases h5 : ¬ f_start.isfinite
            · rw [if_pos h5] at h; cases h
            · push_neg at h2
              refine ⟨?_, ?_, ?_, ?_, by omega, ?_, ?_⟩
              · intro hnil
                subst hnil
                simp [List.isEmpty] at h0
              · rw [not_not] at h1
                exact List.all_eq_true.mp (by simpa using h1)
              · simpa using h2.1
              · simpa using h2.2
              · intro v hv
                cases vbw with
                | none => cases hv
                | some v' =>
                  rw [Option.mem_some_iff] at hv
                  subst hv
                  simp [vbwBad] at h4
                  exact ⟨h4.1, h4.2⟩
              · rw [not_not] at h5
                simpa using h5

theorem except_error_of_no_ok {ε α : Type} (e : Except ε α) (h : ∀ a, e ≠ .ok a) :
    ∃ m, e = .error m := by
  cases e with
  | error m => exact ⟨m, rfl⟩
  | ok a => exact absurd rfl (h a)

/-- C5: every valid construction yields a frame whose derived axis equals
`f_start_hz + rbw_hz * i` for `i < M`, has length `M`, and is strictly
increasing (and, being exact rationals in this model, finite); every
construction violating the field invariants fails with invalid-argument and
produces no object. -/
theorem spectrumframe_construction (psd : List PyF) (rbw f_start : PyF)
    (vbw : Option PyF) (window : Option String) (averages : ℤ)
    (noise_floor : Option PyF) (metadata : List (String × String)) :
    (FrameInputsValid psd rbw f_start vbw averages →
      ∃ sf, mkSpectrumFrame psd rbw f_start vbw window averages noise_floor metadata = .ok sf ∧
        sf.frequencies_hz =
          (List.range psd.length).map (fun i : ℕ => f_start.toQ + rbw.toQ * (i : ℚ)) ∧
        sf.frequencies_hz.length = psd.length ∧
        List.Chain' (· < ·) sf.frequencies_hz) ∧
    (¬ FrameInputsValid psd rbw f_start vbw averages →
      ∃ e, mkSpectrumFrame psd rbw f_start vbw window averages noise_floor metadata = .error e) := by
  constructor
  · intro h
    refine ⟨_, mkSpectrumFrame_ok h, rfl, by simp, ?_⟩
    exact axis_chain (pos_of_fin_valid h.2.2.1 h.2.2.2.1) psd.length
  · intro h
    refine except_error_of_no_ok _ ?_
    intro sf hsf
    exact h (mkSpectrumFrame_ok_valid hsf)

/-- Witness for C5 at the spec's concrete scenario (PSD `[0,-10,-20]`,
`rbw 1`, `f_start 100` yields axis `[100,101,102]`), plus a rejected
construction with `rbw = 0`. -/
theorem spectrumframe_construction_witness :
    (∃ sf, mkSpectrumFrame [.fin 0, .fin (-10), .fin (-20)] (.fin 1) (.fin 100)
        none none 1 none [] = .ok sf ∧
      sf.frequencies_hz = (List.range ([PyF.fin 0, .fin (-10), .fin (-20)] : List PyF).length).map
        (fun i : ℕ => (PyF.fin 100).toQ + (PyF.fin 1).toQ * (i : ℚ)) ∧
      sf.frequencies_hz.length = ([PyF.fin 0, .fin (-10), .fin (-20)] : List PyF).length ∧
      List.Chain' (· < ·) sf.frequencies_hz) ∧
    (∃ e, mkSpectrumFrame [.fin 0] (.fin 0) (.fin 100) none none 1 none [] = .error e) :=
  ⟨(spectrumframe_construction [.fin 0, .fin (-10), .fin (-20)] (.fin 1) (.fin 100)
      none none 1 none []).1 (by decide),
   (spectrumframe_construction [.fin 0] (.fin 0) (.fin 100) none none 1 none []).2
    (by decide)⟩

/-- C10: `SpectrumFrame.__eq__` ignores the metadata field entirely: two
validly constructed frames that agree within the PSD tolerance and exactly
(under Python float equality) on the remaining scalar fields compare equal
whatever their metadata; and changing only metadata never changes the result
of `==`. -/
theorem frame_eq_ignores_metadata :
    (∀ F G : SpectrumFrame, F.WF → G.WF →
      allcloseQ F.psd_dbm_per_hz G.psd_dbm_per_hz = true →
      F.rbw_hz = G.rbw_hz → F.f_start_hz = G.f_start_hz → F.vbw_hz = G.vbw_hz →
      F.window = G.window → F.averages = G.averages →
      pyOptEq F.noise_floor_dbm_per_hz G.noise_floor_dbm_per_hz = true →
      sfEq F G = true) ∧
    (∀ (F G : SpectrumFrame) (md md' : List (String × String)),
      sfEq F G = sfEq { F with metadata := md } { G with metadata := md' }) := by
  constructor
  · intro F G _ _ hclose h1 h2 h3 h4 h5 h6
    simp [sfEq, hclose, h1, h2, h3, h4, h5, h6]
  · intro F G md md'
    rfl

/-- Witness for C10: two concrete frames identical except for different
metadata compare equal. -/
theorem frame_eq_ignores_metadata_witness :
    sfEq ⟨[0], 1, 100, none, none, 1, none, [("origin", "capture")], [100]⟩
      ⟨[0], 1, 100, none, none, 1, none, [("origin", "replay")], [100]⟩ = true := by
  refine frame_eq_ignores_metadata.1 _ _ ?_ ?_ ?_ rfl rfl rfl rfl rfl rfl
  · refine ⟨by simp, by norm_num, by norm_num, by simp, ?_⟩
    norm_num [List.range_succ]
  · refine ⟨by simp, by norm_num, by norm_num, by simp, ?_⟩
    norm_num [List.range_succ]
  · norm_num [allcloseQ]

theorem sorted_head_le_mem {l : List ℕ} (hpw : l.Pairwise (· < ·)) :
    ∀ i ∈ l, l.headD 0 ≤ i := by
  cases l with
  | nil => intro i hi; cases hi
  | cons x tl =>
    intro i hi
    rcases List.mem_cons.mp hi with h | h
    · subst h
      simp
    · exact le_of_lt ((List.pairwise_cons.mp hpw).1 i h)

theorem sorted_head_add_le_get :
    ∀ (l : List ℕ), l.Pairwise (· < ·) → ∀ (j : ℕ) (hj : j < l.length),
      l.headD 0 + j ≤ l.get ⟨j, hj⟩ := by
  intro l
  induction l with
  | nil => intro _ j hj; simp at hj
  | cons x tl ih =>
    intro hpw j hj
    cases j with
    | zero => simp
    | succ j' =>
      have hj' : j' < tl.length := by simpa using hj
      have htlne : tl ≠ [] := by
        intro he
        rw [he] at hj'
        simp at hj'
      have hhead : x < tl.headD 0 := by
        have hmem : tl.headD 0 ∈ tl := by
          cases tl with
          | nil => exact absurd rfl htlne
          | cons y tl2 => simp
        exact (List.pairwise_cons.mp hpw).1 _ hmem
      have hrec := ih (List.pairwise_cons.mp hpw).2 j' hj'
      have hget : (x :: tl).get ⟨j' + 1, hj⟩ = tl.get ⟨j', hj'⟩ := rfl
      rw [hget]
      simp only [List.headD_cons]
      omega

theorem freq_getD_of_WF {sf : SpectrumFrame} (hWF : sf.WF) {i : ℕ}
    (hi : i < sf.frequencies_hz.length) :
    sf.frequencies_hz.getD i 0 = sf.f_start_hz + sf.rbw_hz * (i : ℚ) := by
  obtain ⟨_, _, _, _, hax⟩ := hWF
  rw [hax] at hi ⊢
  rw [List.length_map, List.length_range] at hi
  rw [List.getD_eq_getElem?_getD, List.getElem?_map, List.getElem?_range hi]
  rfl

theorem freq_len_of_WF {sf : SpectrumFrame} (hWF : sf.WF) :
    sf.frequencies_hz.length = sf.psd_dbm_per_hz.length := by
  rw [hWF.2.2.2.2, List.length_map, List.length_range]

/-- C6: `slice_band` raises on invalid bounds (non-finite or `low >= high`),
raises when no bin frequency lies in the closed band, and otherwise returns
a new frame holding exactly the in-band bins, every retained frequency in
the band, `f_start_hz` equal to the first retained bin's frequency, and all
non-axis fields copied unchanged (the original is immutable in this pure
model). -/
theorem slice_band_correct (sf : SpectrumFrame) (lo hi : PyF) (hWF : sf.WF) :
    (¬ (lo.isfinite = true ∧ hi.isfinite = true) ∨ lo.geB hi = true →
      slice_band sf lo hi = .error "Invalid band limits") ∧
    (lo.isfinite = true ∧ hi.isfinite = true → lo.geB hi = false →
      (∀ g ∈ sf.frequencies_hz, ¬ (lo.toQ ≤ g ∧ g ≤ hi.toQ)) →
      slice_band sf lo hi = .error "Requested band has no bins in this SpectrumFrame") ∧
    (lo.isfinite = true ∧ hi.isfinite = true → lo.geB hi = false →
      (∃ g ∈ sf.frequencies_hz, lo.toQ ≤ g ∧ g ≤ hi.toQ) →
      ∃ sf' idx, idx = (List.range sf.frequencies_hz.length).filter
          (fun i => decide (lo.toQ ≤ sf.frequencies_hz.getD i 0 ∧
            sf.frequencies_hz.getD i 0 ≤ hi.toQ)) ∧ idx ≠ [] ∧
        slice_band sf lo hi = .ok sf' ∧
        sf'.psd_dbm_per_hz = idx.map (fun i => sf.psd_dbm_per_hz.getD i 0) ∧
        (∀ g ∈ sf'.frequencies_hz, lo.toQ ≤ g ∧ g ≤ hi.toQ) ∧
        sf'.f_start_hz = sf.frequencies_hz.getD (idx.headD 0) 0 ∧
        sf'.rbw_hz = sf.rbw_hz ∧ sf'.vbw_hz = sf.vbw_hz ∧ sf'.window = sf.window ∧
        sf'.averages = sf.averages ∧
        sf'.noise_floor_dbm_per_hz = sf.noise_floor_dbm_per_hz ∧
        sf'.metadata = sf.metadata) := by
  obtain ⟨hpsdne, hrpos, hav, hvbw, hax⟩ := hWF
  refine ⟨?_, ?_, ?_⟩
  · intro hcond
    unfold slice_band
    rw [if_pos hcond]
  · intro hfin hgeB hnone
    have hidx : (List.range sf.frequencies_hz.length).filter
        (fun i => decide (lo.toQ ≤ sf.frequencies_hz.getD i 0 ∧
          sf.frequencies_hz.getD i 0 ≤ hi.toQ)) = [] := by
      rw [List.filter_eq_nil_iff]
      intro i hir
      rw [List.mem_range] at hir
      rw [decide_eq_true_eq]
      have hmem : sf.frequencies_hz.getD i 0 ∈ sf.frequencies_hz := by
        rw [List.getD_eq_getElem?_getD, List.getElem?_eq_getElem hir]
        exact List.getElem_mem _
      exact hnone _ hmem
    unfold slice_band
    rw [if_neg (by simp [hfin.1, hfin.2, hgeB])]
    simp only [hidx]
    rfl
  · intro hfin hgeB hg
    generalize hidxdef : (List.range sf.frequencies_hz.length).filter
      (fun i => decide (lo.toQ ≤ sf.frequencies_hz.getD i 0 ∧
        sf.frequencies_hz.getD i 0 ≤ hi.toQ)) = idx
    have hne : idx ≠ [] := by
      obtain ⟨g, hgm, hglo, hghi⟩ := hg
      obtain ⟨i, hgi⟩ := List.mem_iff_get.mp hgm
      refine List.ne_nil_of_mem (a := i.1) ?_
      rw [← hidxdef, List.mem_filter]
      refine ⟨List.mem_range.mpr i.2, ?_⟩
      rw [decide_eq_true_eq]
      have hgd : sf.frequencies_hz.getD i.1 0 = sf.frequencies_hz.get i := by
        rw [List.getD_eq_getElem?_getD, List.getElem?_eq_getElem i.2]
        rfl
      rw [hgd, hgi]
      exact ⟨hglo, hghi⟩
    have hmem_idx : ∀ i ∈ idx, i < sf.frequencies_hz.length ∧
        lo.toQ ≤ sf.frequencies_hz.getD i 0 ∧ sf.frequencies_hz.getD i 0 ≤ hi.toQ := by
      intro i hi
      rw [← hidxdef, List.mem_filter] at hi
      refine ⟨List.mem_range.mp hi.1, ?_⟩
      have h2 := hi.2
      rw [decide_eq_true_eq] at h2
      exact h2
    have hpw : idx.Pairwise (· < ·) := by
      rw [← hidxdef]
      exact List.Pairwise.filter _ (List.pairwise_lt_range _)
    have hi0mem : idx.headD 0 ∈ idx := by
      cases hidx0 : idx with
      | nil => exact absurd hidx0 hne
      | cons a l => simp
    obtain ⟨hi0M, hi0lo, hi0hi⟩ := hmem_idx _ hi0mem
    have hvalid : FrameInputsValid (idx.map (fun i => PyF.fin (sf.psd_dbm_per_hz.getD i 0)))
        (.fin sf.rbw_hz) (.fin (sf.frequencies_hz.getD (idx.headD 0) 0))
        (sf.vbw_hz.map .fin) sf.averages := by
      refine ⟨?_, ?_, rfl, ?_, hav, ?_, rfl⟩
      · simp [hne]
      · intro x hx
        rw [List.mem_map] at hx
        obtain ⟨i, _, rfl⟩ := hx
        rfl
      · simp only [PyF.leZero, decide_eq_false_iff_not, not_le]
        exact hrpos
      · intro v hv
        cases hvb2 : sf.vbw_hz with
        | none =>
          rw [hvb2] at hv
          cases hv
        | some q =>
          rw [hvb2] at hv
          rw [Option.map_some', Option.mem_some_iff] at hv
          subst hv
          refine ⟨rfl, ?_⟩
          simp only [PyF.leZero, decide_eq_false_iff_not, not_le]
          exact hvbw q (by rw [hvb2]; rfl)
    have hmk := @mkSpectrumFrame_ok _ _ _ _ sf.window _ sf.noise_floor_dbm_per_hz
      sf.metadata hvalid
    have hie : idx.isEmpty = false := by
      cases hidx0 : idx with
      | nil => exact absurd hidx0 hne
      | cons a l => rfl
    have hslice : slice_band sf lo hi = mkSpectrumFrame
        (idx.map (fun i => PyF.fin (sf.psd_dbm_per_hz.getD i 0)))
        (.fin sf.rbw_hz) (.fin (sf.frequencies_hz.getD (idx.headD 0) 0))
        (sf.vbw_hz.map .fin) sf.window sf.averages sf.noise_floor_dbm_per_hz sf.metadata := by
      simp only [slice_band, hidxdef]
      rw [if_neg (by simp [hfin.1, hfin.2, hgeB]), if_neg (by simp [hie])]
    rw [hmk] at hslice
    refine ⟨_, idx, rfl, hne, hslice, ?_, ?_, rfl, rfl, ?_, rfl, rfl, rfl, rfl⟩
    · show (idx.map (fun i => PyF.fin (sf.psd_dbm_per_hz.getD i 0))).map PyF.toQ = _
      rw [List.map_map]
      rfl
    · show ∀ g ∈ (List.range (idx.map (fun i => PyF.fin (sf.psd_dbm_per_hz.getD i 0))).length).map
        (fun j : ℕ => (PyF.fin (sf.frequencies_hz.getD (idx.headD 0) 0)).toQ +
          (PyF.fin sf.rbw_hz).toQ * (j : ℚ)), lo.toQ ≤ g ∧ g ≤ hi.toQ
      intro g hgm
      rw [List.mem_map] at hgm
      obtain ⟨j, hjr, rfl⟩ := hgm
      rw [List.mem_range, List.length_map] at hjr
      have hLj := List.get_mem idx j hjr
      obtain ⟨hLjM, hLjlo, hLjhi⟩ := hmem_idx _ hLj
      have hij : idx.headD 0 + j ≤ idx.get ⟨j, hjr⟩ := sorted_head_add_le_get idx hpw j hjr
      have hf0 : sf.frequencies_hz.getD (idx.headD 0) 0 =
          sf.f_start_hz + sf.rbw_hz * ((idx.headD 0 : ℕ) : ℚ) :=
        freq_getD_of_WF ⟨hpsdne, hrpos, hav, hvbw, hax⟩ hi0M
      have hfL : sf.frequencies_hz.getD (idx.get ⟨j, hjr⟩) 0 =
          sf.f_start_hz + sf.rbw_hz * ((idx.get ⟨j, hjr⟩ : ℕ) : ℚ) :=
        freq_getD_of_WF ⟨hpsdne, hrpos, hav, hvbw, hax⟩ hLjM
      have hcast : ((idx.headD 0 : ℕ) : ℚ) + (j : ℚ) ≤ ((idx.get ⟨j, hjr⟩ : ℕ) : ℚ) := by
        exact_mod_cast hij
      have hjq : (0 : ℚ) ≤ (j : ℚ) := by positivity
      constructor
      · show lo.toQ ≤ sf.frequencies_hz.getD (idx.headD 0) 0 + sf.rbw_hz * (j : ℚ)
        have hnn : (0 : ℚ) ≤ sf.rbw_hz * (j : ℚ) := mul_nonneg (le_of_lt hrpos) hjq
        linarith [hi0lo]
      · show sf.frequencies_hz.getD (idx.headD 0) 0 + sf.rbw_hz * (j : ℚ) ≤ hi.toQ
        have hmono : sf.rbw_hz * (((idx.headD 0 : ℕ) : ℚ) + (j : ℚ)) ≤
            sf.rbw_hz * ((idx.get ⟨j, hjr⟩ : ℕ) : ℚ) :=
          mul_le_mul_of_nonneg_left hcast (le_of_lt hrpos)
        rw [hf0]
        rw [hfL] at hLjhi
        nlinarith [hmono, hLjhi]
    · show Option.map PyF.toQ (Option.map PyF.fin sf.vbw_hz) = sf.vbw_hz
      cases sf.vbw_hz <;> rfl

/-- A concrete three-bin frame (PSD `[0,-10,-20]`, rbw 1 Hz, start 100 Hz)
used to witness the `slice_band` claim. -/
def sliceDemoFrame : SpectrumFrame :=
  ⟨[0, -10, -20], 1, 100, none, none, 1, none, [], [100, 101, 102]⟩

theorem sliceDemoFrame_WF : sliceDemoFrame.WF := by
  refine ⟨by decide, by norm_num [sliceDemoFrame], by norm_num [sliceDemoFrame], ?_, ?_⟩
  · intro v hv
    simp [sliceDemoFrame] at hv
  · norm_num [sliceDemoFrame, List.range_succ]

/-- Witness for C6 on `sliceDemoFrame`: a NaN bound raises, an empty band
raises, and slicing to `[101, 200]` returns the last two bins with
`f_start_hz = 101` and all other fields copied. -/
theorem slice_band_correct_witness :
    slice_band sliceDemoFrame .nan (.fin 200) = .error "Invalid band limits" ∧
    slice_band sliceDemoFrame (.fin 150) (.fin 160) =
      .error "Requested band has no bins in this SpectrumFrame" ∧
    ∃ sf' idx, idx = (List.range sliceDemoFrame.frequencies_hz.length).filter
        (fun i => decide ((PyF.fin 101).toQ ≤ sliceDemoFrame.frequencies_hz.getD i 0 ∧
          sliceDemoFrame.frequencies_hz.getD i 0 ≤ (PyF.fin 200).toQ)) ∧ idx ≠ [] ∧
      slice_band sliceDemoFrame (.fin 101) (.fin 200) = .ok sf' ∧
      sf'.psd_dbm_per_hz = idx.map (fun i => sliceDemoFrame.psd_dbm_per_hz.getD i 0) ∧
      (∀ g ∈ sf'.frequencies_hz, (PyF.fin 101).toQ ≤ g ∧ g ≤ (PyF.fin 200).toQ) ∧
      sf'.f_start_hz = sliceDemoFrame.frequencies_hz.getD (idx.headD 0) 0 ∧
      sf'.rbw_hz = sliceDemoFrame.rbw_hz ∧ sf'.vbw_hz = sliceDemoFrame.vbw_hz ∧
      sf'.window = sliceDemoFrame.window ∧ sf'.averages = sliceDemoFrame.averages ∧
      sf'.noise_floor_dbm_per_hz = sliceDemoFrame.noise_floor_dbm_per_hz ∧
      sf'.metadata = sliceDemoFrame.metadata :=
  ⟨(slice_band_correct sliceDemoFrame .nan (.fin 200) sliceDemoFrame_WF).1
      (Or.inl (by decide)),
   (slice_band_correct sliceDemoFrame (.fin 150) (.fin 160) sliceDemoFrame_WF).2.1
      (by decide) (by decide) (by decide),
   (slice_band_correct sliceDemoFrame (.fin 101) (.fin 200) sliceDemoFrame_WF).2.2
      (by decide) (by decide) ⟨101, by decide, by decide⟩⟩

theorem jToMeta_roundtrip (l : List (String × String)) :
    List.filterMap
      (fun kv => match kv.2 with | JVal.jstr (.plain s) => some (kv.1, s) | _ => none)
      (l.map (fun kv => (kv.1, JVal.jstr (.plain kv.2)))) = l := by
  induction l with
  | nil => rfl
  | cons kv tl ih => simp [List.filterMap_cons, ih]

/-- The header object written by `spectrumframe_to_b64`. -/
def encodedHeader (sf : SpectrumFrame) (dtype : Dtype) : List (String × JVal) :=
  [("rbw_hz", .jfloat (.fin sf.rbw_hz)),
   ("f_start_hz", .jfloat (.fin sf.f_start_hz)),
   ("vbw_hz", match sf.vbw_hz with | none => .jnull | some v => .jfloat (.fin v)),
   ("window", match sf.window with | none => .jnull | some w => .jstr (.plain w)),
   ("averages", .jint sf.averages),
   ("noise_floor_dbm_per_hz",
     match sf.noise_floor_dbm_per_hz with | none => .jnull | some x => .jfloat x),
   ("metadata", .jobj (sf.metadata.map (fun kv => (kv.1, JVal.jstr (.plain kv.2))))),
   ("psd_dtype", .jstr (.plain (dtypeName dtype))),
   ("codec", .jstr (.plain "zlib+npy")),
   ("version", .jint 1)]

theorem encode_eval (sf : SpectrumFrame) (level : ℤ) (dtype : Dtype)
    (hlev : 0 ≤ level ∧ level ≤ 9) :
    spectrumframe_to_b64 sf level dtype = .ok (.jobj
      [("header", .jobj (encodedHeader sf dtype)),
       ("data", .jstr (.bin (.wellFormed level.toNat dtype
         (sf.psd_dbm_per_hz.map (storeVal dtype)))))]) := by
  unfold spectrumframe_to_b64 encodedHeader
  rw [if_neg (not_not_intro hlev)]

theorem validateHeader_encoded (sf : SpectrumFrame) (dtype : Dtype) :
    validateHeader (encodedHeader sf dtype) = .ok () := by
  unfold validateHeader encodedHeader
  cases sf.vbw_hz <;> cases sf.noise_floor_dbm_per_hz <;>
    simp [List.lookup, pyEqCodec, pyEqOne, isNumberJ, isIntLikeJ, optNumBad]

theorem decode_encoded (sf : SpectrumFrame) (level : ℤ) (dtype : Dtype) :
    b64_to_spectrumframe (.valid (.jobj
      [("header", .jobj (encodedHeader sf dtype)),
       ("data", .jstr (.bin (.wellFormed level.toNat dtype
         (sf.psd_dbm_per_hz.map (storeVal dtype)))))])) =
    (match mkSpectrumFrame (sf.psd_dbm_per_hz.map (storeVal dtype)) (.fin sf.rbw_hz)
        (.fin sf.f_start_hz) (sf.vbw_hz.map .fin) sf.window sf.averages
        sf.noise_floor_dbm_per_hz sf.metadata with
    | .error m => .error (.arg m)
    | .ok x => .ok x) := by
  have hmeta := jToMeta_roundtrip sf.metadata
  unfold b64_to_spectrumframe encodedHeader
  cases hvb : sf.vbw_hz <;> cases hw : sf.window <;> cases hn : sf.noise_floor_dbm_per_hz <;>
    simp [List.lookup, validateHeader, pyEqCodec, pyEqOne, isNumberJ, isIntLikeJ, optNumBad,
      dataDecode, jToPyF, jToInt, jToOptPyF, jToWindow, jToMeta, hmeta]

/-- C1 (amended): encode-then-decode succeeds whenever every stored PSD value
stays finite under the chosen dtype (automatic for double precision), and the
decoded frame reproduces every scalar field exactly and the PSD as exactly
the dtype-converted values (hence exactly for double precision). -/
theorem codec_roundtrip (sf : SpectrumFrame) (level : ℤ) (dtype : Dtype)
    (hWF : sf.WF) (hlev : 0 ≤ level ∧ level ≤ 9)
    (hfin : ∀ q ∈ sf.psd_dbm_per_hz, (storeVal dtype q).isfinite = true) :
    ∃ v sf', spectrumframe_to_b64 sf level dtype = .ok v ∧
      b64_to_spectrumframe (.valid v) = .ok sf' ∧
      sf'.rbw_hz = sf.rbw_hz ∧ sf'.f_start_hz = sf.f_start_hz ∧
      sf'.vbw_hz = sf.vbw_hz ∧ sf'.window = sf.window ∧
      sf'.averages = sf.averages ∧
      sf'.noise_floor_dbm_per_hz = sf.noise_floor_dbm_per_hz ∧
      sf'.psd_dbm_per_hz = sf.psd_dbm_per_hz.map (fun q => (storeVal dtype q).toQ) ∧
      (dtype = .f64 → sf'.psd_dbm_per_hz = sf.psd_dbm_per_hz) := by
  obtain ⟨hpsdne, hrpos, hav, hvbw, hax⟩ := hWF
  have hvalid : FrameInputsValid (sf.psd_dbm_per_hz.map (storeVal dtype)) (.fin sf.rbw_hz)
      (.fin sf.f_start_hz) (sf.vbw_hz.map .fin) sf.averages := by
    refine ⟨by simp [hpsdne], ?_, rfl, ?_, hav, ?_, rfl⟩
    · intro x hx
      rw [List.mem_map] at hx
      obtain ⟨q, hq, rfl⟩ := hx
      exact hfin q hq
    · simp only [PyF.leZero, decide_eq_false_iff_not, not_le]
      exact hrpos
    · intro v hv
      cases hvb : sf.vbw_hz with
      | none =>
        rw [hvb] at hv
        cases hv
      | some q =>
        rw [hvb] at hv
        rw [Option.map_some', Option.mem_some_iff] at hv
        subst hv
        refine ⟨rfl, ?_⟩
        simp only [PyF.leZero, decide_eq_false_iff_not, not_le]
        exact hvbw q (by rw [hvb]; rfl)
  have hmk := @mkSpectrumFrame_ok _ _ _ _ sf.window _ sf.noise_floor_dbm_per_hz
    sf.metadata hvalid
  have hdec := decode_encoded sf level dtype
  rw [hmk] at hdec
  refine ⟨_, _, encode_eval sf level dtype hlev, hdec, rfl, rfl, ?_, rfl, rfl, rfl, ?_, ?_⟩
  · show Option.map PyF.toQ (Option.map PyF.fin sf.vbw_hz) = sf.vbw_hz
    cases sf.vbw_hz <;> rfl
  · show (sf.psd_dbm_per_hz.map (storeVal dtype)).map PyF.toQ = _
    rw [List.map_map]
    rfl
  · intro hd
    subst hd
    show (sf.psd_dbm_per_hz.map (storeVal .f64)).map PyF.toQ = sf.psd_dbm_per_hz
    rw [List.map_map]
    simp [Function.comp_def, storeVal, PyF.toQ]

theorem fl32_big : fl32 ((2 : ℚ) ^ 150) = .pinf := by
  unfold fl32
  rw [if_neg (by positivity), if_pos ?_, if_neg (by exact not_lt.mpr (by positivity))]
  rw [abs_of_nonneg (by positivity)]
  exact pow_le_pow_right₀ (by norm_num) (by norm_num)

/-- Counterexample for C1 as stated: a validly constructed frame whose single
PSD value exceeds the float32 range; encoding at the default level with the
float32 storage dtype and decoding raises (the stored value becomes infinite
and the constructor re-validation rejects it) instead of succeeding. -/
theorem codec_roundtrip_cex :
    ∃ sf v, mkSpectrumFrame [.fin (2 ^ 150)] (.fin 1) (.fin 0) none none 1 none [] = .ok sf ∧
      spectrumframe_to_b64 sf 6 .f32 = .ok v ∧
      b64_to_spectrumframe (.valid v) = .error (.arg "psd_dbm_per_hz must be finite") := by
  have hvalid : FrameInputsValid [PyF.fin (2 ^ 150)] (.fin 1) (.fin 0) none 1 := by
    refine ⟨by simp, ?_, rfl, by decide, by norm_num, by simp, rfl⟩
    intro x hx
    simp at hx
    subst hx
    rfl
  have hmk := @mkSpectrumFrame_ok _ _ _ _ none _ none [] hvalid
  refine ⟨_, _, hmk, encode_eval _ 6 .f32 (by norm_num), ?_⟩
  have hdec := decode_encoded
    ⟨[PyF.fin ((2 : ℚ) ^ 150)].map PyF.toQ, (PyF.fin 1).toQ, (PyF.fin 0).toQ,
      Option.map PyF.toQ none, none, 1, none, [],
      (List.range ([PyF.fin ((2 : ℚ) ^ 150)].map PyF.toQ).length).map
        (fun i : ℕ => (PyF.fin 0).toQ + (PyF.fin 1).toQ * (i : ℚ))⟩ 6 .f32
  have hstored : ([PyF.fin ((2 : ℚ) ^ 150)].map PyF.toQ).map (storeVal .f32) = [PyF.pinf] := by
    simp [PyF.toQ, storeVal, fl32_big]
  rw [hstored] at hdec
  have hbad : mkSpectrumFrame [PyF.pinf] (.fin ((PyF.fin 1).toQ)) (.fin ((PyF.fin 0).toQ))
      (Option.map PyF.fin (Option.map PyF.toQ none)) none 1 none [] =
      .error "psd_dbm_per_hz must be finite" := by
    unfold mkSpectrumFrame
    rw [if_neg (by simp), if_pos (by simp [PyF.isfinite])]
  rw [hbad] at hdec
  exact hdec

/-- Witness for the amended C1 at double precision: the round-trip of the
demo frame is exact. -/
theorem codec_roundtrip_witness :
    ∃ v sf', spectrumframe_to_b64 sliceDemoFrame 6 .f64 = .ok v ∧
      b64_to_spectrumframe (.valid v) = .ok sf' ∧
      sf'.rbw_hz = sliceDemoFrame.rbw_hz ∧ sf'.f_start_hz = sliceDemoFrame.f_start_hz ∧
      sf'.vbw_hz = sliceDemoFrame.vbw_hz ∧ sf'.window = sliceDemoFrame.window ∧
      sf'.averages = sliceDemoFrame.averages ∧
      sf'.noise_floor_dbm_per_hz = sliceDemoFrame.noise_floor_dbm_per_hz ∧
      sf'.psd_dbm_per_hz = sliceDemoFrame.psd_dbm_per_hz.map (fun q => (storeVal .f64 q).toQ) ∧
      (Dtype.f64 = .f64 → sf'.psd_dbm_per_hz = sliceDemoFrame.psd_dbm_per_hz) :=
  codec_roundtrip sliceDemoFrame 6 .f64 sliceDemoFrame_WF (by norm_num)
    (fun q _ => rfl)

/-- A strictly numeric JSON value in the sense of the specification text
(a JSON number: integral or floating literal; booleans are not numbers). -/
def strictNumJ : JVal → Bool
  | .jint _ => true
  | .jfloat _ => true
  | _ => false

/-- A JSON integer literal (the specification's "integer-valued"). -/
def strictIntJ : JVal → Bool
  | .jint _ => true
  | _ => false

/-- The `data` field is a string whose base64, zlib and npy layers are all
well formed. -/
def binWellFormed : Option JVal → Bool
  | some (.jstr (.bin (.wellFormed _ _ _))) => true
  | _ => false

/-- The failure condition exactly as the claim enumerates it: outer text not
JSON or not an object; `header` or `data` missing; `header.codec` differing
from the constant; `header.version` differing from 1; `rbw_hz`/`f_start_hz`
missing or not numeric; `averages` missing or not integer-valued; or a
corrupt binary layer. -/
def claimedC7cond : JText → Bool
  | .bad _ => true
  | .valid v =>
    match v with
    | .jobj fields =>
      match List.lookup "header" fields, List.lookup "data" fields with
      | none, _ => true
      | _, none => true
      | some hv, some dv =>
        (match hv with
         | .jobj h =>
             (! pyEqCodec (List.lookup "codec" h)) ||
             (! pyEqOne (List.lookup "version" h)) ||
             (! (match List.lookup "rbw_hz" h with
                 | some x => strictNumJ x
                 | none => false)) ||
             (! (match List.lookup "f_start_hz" h with
                 | some x => strictNumJ x
                 | none => false)) ||
             (! (match List.lookup "averages" h with
                 | some x => strictIntJ x
                 | none => false))
         | _ => false) ||
        (! binWellFormed (some dv))
    | _ => true

/-- All ten header checks of `_validate_header` as one flat condition. -/
def headerOkB (h : List (String × JVal)) : Bool :=
  (! (List.lookup "rbw_hz" h).isNone) && (! (List.lookup "f_start_hz" h).isNone) &&
  (! (List.lookup "averages" h).isNone) &&
  pyEqCodec (List.lookup "codec" h) && pyEqOne (List.lookup "version" h) &&
  isNumberJ ((List.lookup "rbw_hz" h).getD .jnull) &&
  isNumberJ ((List.lookup "f_start_hz" h).getD .jnull) &&
  isIntLikeJ ((List.lookup "averages" h).getD .jnull) &&
  (! optNumBad (List.lookup "vbw_hz" h)) &&
  (! optNumBad (List.lookup "noise_floor_dbm_per_hz" h))

/-- The decoder's true invalid-format condition (proved exact below): the
claim's list corrected for a non-object `header` value, optional numeric
fields (`vbw_hz`, `noise_floor_dbm_per_hz`) of non-null non-numeric type,
and Python `bool`/numeric coercions in the type checks. -/
def fmtFailB : JText → Bool
  | .bad _ => true
  | .valid v =>
    match v with
    | .jobj fields =>
      match List.lookup "header" fields, List.lookup "data" fields with
      | none, _ => true
      | _, none => true
      | some hv, some dv =>
        match hv with
        | .jobj h => (! headerOkB h) || (! binWellFormed (some dv))
        | _ => true
    | _ => true

theorem validateHeader_ok_iff (h : List (String × JVal)) :
    validateHeader h = .ok () ↔ headerOkB h = true := by
  unfold validateHeader
  by_cases h1 : (List.lookup "rbw_hz" h).isNone = true
  · rw [if_pos h1]
    refine iff_of_false (by simp) ?_
    simp only [headerOkB, h1, Bool.not_true, Bool.false_and, Bool.and_false]
    simp
  · rw [if_neg h1]
    by_cases h2 : (List.lookup "f_start_hz" h).isNone = true
    · rw [if_pos h2]
      refine iff_of_false (by simp) ?_
      simp only [headerOkB, h2, Bool.not_true, Bool.false_and, Bool.and_false]
      simp
    · rw [if_neg h2]
      by_cases h3 : (List.lookup "averages" h).isNone = true
      · rw [if_pos h3]
        refine iff_of_false (by simp) ?_
        simp only [headerOkB, h3, Bool.not_true, Bool.false_and, Bool.and_false]
        simp
      · rw [if_neg h3]
        by_cases h4 : pyEqCodec (List.lookup "codec" h) = true
        · rw [if_neg (not_not_intro h4)]
          by_cases h5 : pyEqOne (List.lookup "version" h) = true
          · rw [if_neg (not_not_intro h5)]
            by_cases h6 : isNumberJ ((List.lookup "rbw_hz" h).getD .jnull) = true
            · rw [if_neg (not_not_intro h6)]
              by_cases h7 : isNumberJ ((List.lookup "f_start_hz" h).getD .jnull) = true
              · rw [if_neg (not_not_intro h7)]
                by_cases h8 : isIntLikeJ ((List.lookup "averages" h).getD .jnull) = true
                · rw [if_neg (not_not_intro h8)]
                  by_cases h9 : optNumBad (List.lookup "vbw_hz" h) = true
                  · rw [if_pos h9]
                    refine iff_of_false (by simp) ?_
                    simp only [headerOkB, h9, Bool.not_true, Bool.false_and, Bool.and_false]
                    simp
                  · rw [if_neg h9]
                    by_cases h10 : optNumBad (List.lookup "noise_floor_dbm_per_hz" h) = true
                    · rw [if_pos h10]
                      refine iff_of_false (by simp) ?_
                      simp only [headerOkB, h10, Bool.not_true, Bool.false_and, Bool.and_false]
                      simp
                    · rw [if_neg h10]
                      refine iff_of_true rfl ?_
                      simp only [headerOkB, h4, h5, h6, h7, h8,
                        Bool.eq_false_iff.mpr h1, Bool.eq_false_iff.mpr h2,
                        Bool.eq_false_iff.mpr h3, Bool.eq_false_iff.mpr h9,
                        Bool.eq_false_iff.mpr h10, Bool.not_false, Bool.and_true, Bool.true_and]
                · rw [if_pos h8]
                  refine iff_of_false (by simp) ?_
                  simp only [headerOkB, Bool.eq_false_iff.mpr h8, Bool.false_and, Bool.and_false]
                  simp
              · rw [if_pos h7]
                refine iff_of_false (by simp) ?_
                simp only [headerOkB, Bool.eq_false_iff.mpr h7, Bool.false_and, Bool.and_false]
                simp
            · rw [if_pos h6]
              refine iff_of_false (by simp) ?_
              simp only [headerOkB, Bool.eq_false_iff.mpr h6, Bool.false_and, Bool.and_false]
              simp
          · rw [if_pos h5]
            refine iff_of_false (by simp) ?_
            simp only [headerOkB, Bool.eq_false_iff.mpr h5, Bool.false_and, Bool.and_false]
            simp
        · rw [if_pos h4]
          refine iff_of_false (by simp) ?_
          simp only [headerOkB, Bool.eq_false_iff.mpr h4, Bool.false_and, Bool.and_false]
          simp

theorem validateHeader_ok_or_fmt (h : List (String × JVal)) :
    validateHeader h = .ok () ∨ ∃ m, validateHeader h = .error (.fmt m) := by
  unfold validateHeader
  by_cases h1 : (List.lookup "rbw_hz" h).isNone = true
  · rw [if_pos h1]
    exact Or.inr ⟨_, rfl⟩
  · rw [if_neg h1]
    by_cases h2 : (List.lookup "f_start_hz" h).isNone = true
    · rw [if_pos h2]
      exact Or.inr ⟨_, rfl⟩
    · rw [if_neg h2]
      by_cases h3 : (List.lookup "averages" h).isNone = true
      · rw [if_pos h3]
        exact Or.inr ⟨_, rfl⟩
      · rw [if_neg h3]
        by_cases h4 : pyEqCodec (List.lookup "codec" h) = true
        · rw [if_neg (not_not_intro h4)]
          by_cases h5 : pyEqOne (List.lookup "version" h) = true
          · rw [if_neg (not_not_intro h5)]
            by_cases h6 : isNumberJ ((List.lookup "rbw_hz" h).getD .jnull) = true
            · rw [if_neg (not_not_intro h6)]
              by_cases h7 : isNumberJ ((List.lookup "f_start_hz" h).getD .jnull) = true
              · rw [if_neg (not_not_intro h7)]
                by_cases h8 : isIntLikeJ ((List.lookup "averages" h).getD .jnull) = true
                · rw [if_neg (not_not_intro h8)]
                  by_cases h9 : optNumBad (List.lookup "vbw_hz" h) = true
                  · rw [if_pos h9]
                    exact Or.inr ⟨_, rfl⟩
                  · rw [if_neg h9]
                    by_cases h10 : optNumBad (List.lookup "noise_floor_dbm_per_hz" h) = true
                    · rw [if_pos h10]
                      exact Or.inr ⟨_, rfl⟩
                    · rw [if_neg h10]
                      exact Or.inl rfl
                · rw [if_pos h8]
                  exact Or.inr ⟨_, rfl⟩
              · rw [if_pos h7]
                exact Or.inr ⟨_, rfl⟩
            · rw [if_pos h6]
              exact Or.inr ⟨_, rfl⟩
          · rw [if_pos h5]
            exact Or.inr ⟨_, rfl⟩
        · rw [if_pos h4]
          exact Or.inr ⟨_, rfl⟩

theorem dataDecode_cases (dv : JVal) :
    (binWellFormed (some dv) = true ∧ ∃ vals, dataDecode dv = .ok vals) ∨
    (binWellFormed (some dv) = false ∧ ∃ m, dataDecode dv = .error (.fmt m)) := by
  cases dv with
  | jstr sv =>
    cases sv with
    | plain s => exact Or.inr ⟨rfl, _, rfl⟩
    | bin b =>
      cases b with
      | wellFormed level d vals => exact Or.inl ⟨rfl, vals, rfl⟩
      | badB64 n => exact Or.inr ⟨rfl, _, rfl⟩
      | badZlib n => exact Or.inr ⟨rfl, _, rfl⟩
      | badNpy n => exact Or.inr ⟨rfl, _, rfl⟩
  | jnull => exact Or.inr ⟨rfl, _, rfl⟩
  | jbool b => exact Or.inr ⟨rfl, _, rfl⟩
  | jint n => exact Or.inr ⟨rfl, _, rfl⟩
  | jfloat x => exact Or.inr ⟨rfl, _, rfl⟩
  | jarr l => exact Or.inr ⟨rfl, _, rfl⟩
  | jobj l => exact Or.inr ⟨rfl, _, rfl⟩

theorem wrap_no_fmt (e : Except String SpectrumFrame) (m : String) :
    (match e with
     | .error m => Except.error (DErr.arg m)
     | .ok x => Except.ok x) ≠ .error (.fmt m) := by
  cases e <;> simp

/-- C7 (amended): `b64_to_spectrumframe` raises invalid-format exactly when:
the outer text is not JSON or not an object; `header` or `data` is missing;
`header` is present but not an object; `header.codec` is not the string
"zlib+npy"; `header.version` does not compare equal to 1 under Python `==`
(so the JSON values `1`, `1.0` and `true` all pass); `rbw_hz` or
`f_start_hz` is missing or not a Python number (JSON booleans count as
numbers); `averages` is missing or not `int`-like (booleans count); an
optional `vbw_hz`/`noise_floor_dbm_per_hz` is present, non-null and
non-numeric; or the base64/zlib/npy binary stack of `data` is not well
formed. Frame-constructor re-validation failures surface as
invalid-argument, not invalid-format. -/
theorem decode_errors (t : JText) :
    (∃ m, b64_to_spectrumframe t = .error (.fmt m)) ↔ fmtFailB t = true := by
  cases t with
  | bad n => simp [b64_to_spectrumframe, fmtFailB]
  | valid v =>
    cases v with
    | jnull => simp [b64_to_spectrumframe, fmtFailB]
    | jbool b => simp [b64_to_spectrumframe, fmtFailB]
    | jint n => simp [b64_to_spectrumframe, fmtFailB]
    | jfloat x => simp [b64_to_spectrumframe, fmtFailB]
    | jstr s => simp [b64_to_spectrumframe, fmtFailB]
    | jarr l => simp [b64_to_spectrumframe, fmtFailB]
    | jobj fields =>
      cases hh : List.lookup "header" fields with
      | none => simp [b64_to_spectrumframe, fmtFailB, hh]
      | some hv =>
        cases hd : List.lookup "data" fields with
        | none => simp [b64_to_spectrumframe, fmtFailB, hh, hd]
        | some dv =>
          cases hv with
          | jnull => simp [b64_to_spectrumframe, fmtFailB, hh, hd]
          | jbool b => simp [b64_to_spectrumframe, fmtFailB, hh, hd]
          | jint n => simp [b64_to_spectrumframe, fmtFailB, hh, hd]
          | jfloat x => simp [b64_to_spectrumframe, fmtFailB, hh, hd]
          | jstr s => simp [b64_to_spectrumframe, fmtFailB, hh, hd]
          | jarr l => simp [b64_to_spectrumframe, fmtFailB, hh, hd]
          | jobj hl =>
            by_cases hok : headerOkB hl = true
            · have hvh := (validateHeader_ok_iff hl).mpr hok
              rcases dataDecode_cases dv with ⟨hbin, vals, hdd⟩ | ⟨hbin, m0, hdd⟩
              · refine iff_of_false ?_ ?_
                · rintro ⟨m, hm⟩
                  simp only [b64_to_spectrumframe, hh, hd, hvh, hdd] at hm
                  exact wrap_no_fmt _ m hm
                · simp [fmtFailB, hh, hd, hok, hbin]
              · refine iff_of_true ⟨m0, ?_⟩ ?_
                · simp only [b64_to_spectrumframe, hh, hd, hvh, hdd]
                · simp [fmtFailB, hh, hd, hbin]
            · have hokf : headerOkB hl = false := Bool.eq_false_iff.mpr hok
              rcases validateHeader_ok_or_fmt hl with hvh | ⟨m0, hvh⟩
              · exact absurd ((validateHeader_ok_iff hl).mp hvh) hok
              · refine iff_of_true ⟨m0, ?_⟩ ?_
                · simp only [b64_to_spectrumframe, hh, hd, hvh]
                · simp [fmtFailB, hh, hd, hokf]

/-- Witness for the amended C7: a payload missing the `data` field is
rejected as invalid-format. -/
theorem decode_errors_witness :
    ∃ m, b64_to_spectrumframe
      (.valid (.jobj [("header", .jobj [])])) = .error (.fmt m) :=
  (decode_errors (.valid (.jobj [("header", .jobj [])]))).mpr (by decide)

/-- Counterexample for C7 as stated: an envelope satisfying none of the
claim's enumerated failure conditions (valid JSON object, `header` and
`data` present, correct codec and version, numeric `rbw_hz` and
`f_start_hz`, integer `averages`, intact binary layers) on which the decoder
nevertheless raises invalid-format, because the optional field `vbw_hz`
holds a string — a case absent from the claim's list. -/
theorem decode_errors_cex :
    b64_to_spectrumframe (.valid (.jobj
      [("header", .jobj
        [("rbw_hz", .jint 1), ("f_start_hz", .jint 0), ("averages", .jint 1),
         ("codec", .jstr (.plain "zlib+npy")), ("version", .jint 1),
         ("vbw_hz", .jstr (.plain "x"))]),
       ("data", .jstr (.bin (.wellFormed 6 .f32 [.fin 0])))])) =
      .error (.fmt "Header field vbw_hz must be a number") ∧
    claimedC7cond (.valid (.jobj
      [("header", .jobj
        [("rbw_hz", .jint 1), ("f_start_hz", .jint 0), ("averages", .jint 1),
         ("codec", .jstr (.plain "zlib+npy")), ("version", .jint 1),
         ("vbw_hz", .jstr (.plain "x"))]),
       ("data", .jstr (.bin (.wellFormed 6 .f32 [.fin 0])))])) = false :=
  ⟨by decide, by decide⟩

end RFScope
